import Mathlib

/-!
Shallow embedding of the routing and rendering pipeline of the typedoc
output subsystem (src/lib/output/html-output.ts and the Output/Router
contract from src/lib/output/output.ts).

The embedded pieces are:

* the entity graph data model (`ReflectionKind`, `DeclarationReflection`,
  `ProjectReflection`): the reflection model classes live in
  `src/lib/models`, which is not part of the shown subset, so these are
  modelled from the spec (one node = identity, alias, kind, ordered child
  list; the graph is immutable during routing);
* `KindFolderHtmlOutputRouter.buildDocuments` / `buildOutputs` /
  `applyAnchorUrl` / `getUrl` (html-output.ts lines 539-645), threaded as
  explicit state passing over `RouterState` (the router's `urls` and
  `anchors` maps plus the `outputs` array that the source mutates in
  place);
* `HtmlOutputRouter.relativeUrl` / `setCurrentDocument` / the memo map
  (html-output.ts lines 463-519), as a state transformer on
  `RelUrlState`;
* `Renderer.writeOutput` / `prepareOutputDirectory` (html-output.ts lines
  1278-1387), as a trace-producing interpreter parameterised by a
  `Behavior` oracle describing how the backend, the async jobs and the
  filesystem react.
-/

namespace Typedoc

/-- The reflection kinds relevant to routing.  Modelled from the spec:
`ReflectionKind` lives in the missing `src/lib/models`; the kinds with a
directory mapping are exactly the keys of `kindMappings` in
html-output.ts, the others (members such as properties and methods) have
no mapping. -/
inductive ReflectionKind where
  | Class
  | Interface
  | Enum
  | Namespace
  | Module
  | TypeAlias
  | Function
  | Variable
  | Property
  | Method
  | Accessor
  | CallSignature
  deriving DecidableEq, Repr

/-- A node of the documentation entity graph.  Modelled from the spec
(§3): identity, a kind tag, an ordered list of children, and the
URL-safe alias that `Reflection.getAlias` (missing `src/lib/models`)
computes from the name; the graph is constructed once and is immutable
during routing, so the alias is a plain field. -/
inductive DeclarationReflection where
  | mk (eid : Nat) (al : String) (kind : ReflectionKind)
      (children : List DeclarationReflection)

def DeclarationReflection.eid : DeclarationReflection → Nat
  | .mk e _ _ _ => e

def DeclarationReflection.getAlias : DeclarationReflection → String
  | .mk _ a _ _ => a

def DeclarationReflection.kind : DeclarationReflection → ReflectionKind
  | .mk _ _ k _ => k

def DeclarationReflection.children :
    DeclarationReflection → List DeclarationReflection
  | .mk _ _ _ cs => cs

/-- Modelled from the spec: `Reflection.kindOf` from the missing
`src/lib/models` tests the kind tag of a reflection. -/
def DeclarationReflection.kindOf (r : DeclarationReflection)
    (k : ReflectionKind) : Bool :=
  r.kind == k

/-- The root of the entity graph (`ProjectReflection`, missing
`src/lib/models`, modelled from the spec): an identity plus the ordered
list of top-level children. -/
structure ProjectReflection where
  eid : Nat
  children : List DeclarationReflection

/-- The template selector of `HtmlOutputDocument` (html-output.ts line
378). -/
inductive Template where
  | reflection
  | index
  deriving DecidableEq, Repr

/-- `HtmlOutputDocument` (html-output.ts lines 365-380).  The `project`
and `model` object references are represented by the entity identities.
-/
structure HtmlOutputDocument where
  project : Nat
  model : Nat
  filename : String
  template : Template
  deriving DecidableEq, Repr

/-- Does `p` start with `s`?  Model of the JS `String` prefix test,
over the character list so that it evaluates by kernel reduction. -/
def strStartsWith (s p : String) : Bool :=
  p.data.isPrefixOf s.data

/-- Does `p` end `s`?  Model of JS `String.prototype.endsWith` (used by
`hasReadme`, html-output.ts line 735). -/
def strEndsWith (s p : String) : Bool :=
  p.data.isSuffixOf s.data

/-- Split a character list at a separator; `chSplit sep s.data`
mirrors JS `String.prototype.split` / Node's path segmentation. -/
def chSplit (sep : Char) : List Char → List (List Char)
  | [] => [[]]
  | c :: rest =>
    match chSplit sep rest with
    | [] => [[c]]
    | g :: gs => if c = sep then [] :: g :: gs else (c :: g) :: gs

/-- The `/`-separated segments of a path. -/
def splitOnSlash (s : String) : List String :=
  (chSplit '/' s.data).map (fun g => String.mk g)

/-- Join strings with a separator; mirrors JS `Array.prototype.join`
(used by `buildOutputs`, html-output.ts line 590) and the joins inside
Node's path functions. -/
def joinSep (sep : String) : List String → String
  | [] => ""
  | [x] => x
  | x :: y :: rest => x ++ sep ++ joinSep sep (y :: rest)

/-- `kindMappings` (html-output.ts lines 450-459): the kind → directory
classification used by `KindFolderHtmlOutputRouter`. -/
def kindMappings : ReflectionKind → Option String
  | .Class => some "classes"
  | .Interface => some "interfaces"
  | .Enum => some "enums"
  | .Namespace => some "modules"
  | .Module => some "modules"
  | .TypeAlias => some "types"
  | .Function => some "functions"
  | .Variable => some "variables"
  | _ => none

/-- Association-list lookup; JS `Map.get` keyed by object identity.  New
entries are prepended by the state transformers below, so the first hit
is the most recent `Map.set`. -/
def alookup {α β : Type} [DecidableEq α] (k : α) : List (α × β) → Option β
  | [] => none
  | (k2, v) :: rest => if k2 = k then some v else alookup k rest

/-- JS string interpolation of a possibly-missing value: `undefined`
prints as the string "undefined". -/
def jsStr : Option String → String
  | none => "undefined"
  | some s => s

/-- The state mutated by the document-building traversal: the router's
`urls` and `anchors` maps (html-output.ts lines 475-476) and the
`outputs` array that `buildDocuments`/`buildOutputs` push onto. -/
structure RouterState where
  urls : List (Nat × String)
  anchors : List (Nat × String)
  docs : List HtmlOutputDocument
  deriving DecidableEq, Repr

/-- `KindFolderHtmlOutputRouter.getUrl` (html-output.ts lines 632-644):
the dotted name of a reflection relative to a stopping ancestor.  The
source climbs `parent` pointers until it reaches `relative` or the
project; here the aliases of the ancestors strictly between the
reflection and the stopping point are passed explicitly, nearest parent
first. -/
def getUrl (al : String) : List String → String
  | [] => al
  | p :: rest => getUrl p rest ++ "." ++ al

theorem sizeOf_children_lt (r : DeclarationReflection) :
    sizeOf r.children < sizeOf r := by
  cases r with
  | mk e a k cs =>
    simp only [DeclarationReflection.children, DeclarationReflection.mk.sizeOf_spec]
    omega

mutual
/-- `KindFolderHtmlOutputRouter.applyAnchorUrl` (html-output.ts lines
612-630): anchor `r` (and, via `traverse`, its whole subtree) into the
document of `container`.  All our graph nodes are declaration
reflections, so the early-return guard for other reflection types never
fires.  `ancRel` holds the aliases between the container and `r`
(nearest first), which is what the source's `getUrl(reflection,
container)` climb computes.  The source also sets
`reflection.hasOwnDocument = false`, a mutation of the graph node that
the router never reads back. -/
def applyAnchorUrl (containerEid : Nat) (ancRel : List String)
    (r : DeclarationReflection) (st : RouterState) : RouterState :=
  let anchor := getUrl r.getAlias ancRel
  let st1 : RouterState :=
    { st with
      urls := (r.eid, jsStr (alookup containerEid st.urls) ++ "#" ++ anchor)
        :: st.urls
      anchors := (r.eid, anchor) :: st.anchors }
  applyAnchorUrlList containerEid (r.getAlias :: ancRel) r.children st1
termination_by sizeOf r
decreasing_by
  simp_wf
  exact sizeOf_children_lt r

/-- The `reflection.traverse` loop inside `applyAnchorUrl`
(html-output.ts lines 626-629), child by child in order. -/
def applyAnchorUrlList (containerEid : Nat) (ancRel : List String)
    (cs : List DeclarationReflection) (st : RouterState) : RouterState :=
  match cs with
  | [] => st
  | c :: rest =>
    applyAnchorUrlList containerEid ancRel rest
      (applyAnchorUrl containerEid ancRel c st)
termination_by sizeOf cs
decreasing_by
  all_goals simp_wf <;> omega
end

mutual
/-- `KindFolderHtmlOutputRouter.buildOutputs` (html-output.ts lines
583-610).  If the kind has a directory mapping the reflection gets its
own document (url = directory / dotted name + ".html") and we recurse
into its children; otherwise the whole subtree is anchored into the
parent's document.  `anc` holds the ancestor aliases below the project,
nearest first; `parentEid` is `reflection.parent`.  In the source the
`traverse` callback distinguishes declaration children from other
traversal results; every child in our graph is a declaration, so the
recursion always goes through `buildOutputs`.  The source also sets
`reflection.hasOwnDocument = true`, a graph-node mutation the router
never reads back (its own `hasOwnDocument` set is derived from the
document list in `getDocuments`). -/
def buildOutputs (projEid parentEid : Nat) (anc : List String)
    (r : DeclarationReflection) (st : RouterState) : RouterState :=
  match kindMappings r.kind with
  | some mapping =>
    let url := mapping ++ "/" ++ (getUrl r.getAlias anc ++ ".html")
    let st1 : RouterState :=
      { st with
        docs := st.docs ++ [⟨projEid, r.eid, url, Template.reflection⟩]
        urls := (r.eid, url) :: st.urls }
    buildOutputsList projEid r.eid (r.getAlias :: anc) r.children st1
  | none => applyAnchorUrl parentEid [] r st
termination_by sizeOf r
decreasing_by
  simp_wf
  exact sizeOf_children_lt r

/-- The `reflection.traverse` loop inside the mapped branch of
`buildOutputs` (html-output.ts lines 599-606), child by child in
order. -/
def buildOutputsList (projEid parentEid : Nat) (anc : List String)
    (cs : List DeclarationReflection) (st : RouterState) : RouterState :=
  match cs with
  | [] => st
  | c :: rest =>
    buildOutputsList projEid parentEid anc rest
      (buildOutputs projEid parentEid anc c st)
termination_by sizeOf cs
decreasing_by
  all_goals simp_wf <;> omega
end

/-- `hasReadme` (html-output.ts lines 734-736). -/
def hasReadme (readme : String) : Bool :=
  !(strEndsWith readme "none")

/-- `KindFolderHtmlOutputRouter.buildDocuments` (html-output.ts lines
539-581): the root special cases followed by the traversal of the
top-level children.  `readme` is the router's `@Option("readme")`
value. -/
def buildDocuments (readme : String) (project : ProjectReflection) :
    RouterState :=
  let st0 : RouterState := ⟨[], [], []⟩
  let st1 : RouterState :=
    if !(hasReadme readme) then
      { st0 with
        urls := [(project.eid, "index.html")]
        docs := [⟨project.eid, project.eid, "index.html",
          Template.reflection⟩] }
    else if project.children.all (fun c => c.kindOf ReflectionKind.Module)
    then
      { st0 with
        urls := [(project.eid, "index.html")]
        docs := [⟨project.eid, project.eid, "index.html", Template.index⟩] }
    else
      { st0 with
        urls := [(project.eid, "modules.html")]
        docs := [⟨project.eid, project.eid, "index.html", Template.index⟩,
          ⟨project.eid, project.eid, "modules.html", Template.reflection⟩] }
  buildOutputsList project.eid project.eid [] project.children st1

/-- `HtmlOutputRouter.getDocuments` (html-output.ts lines 521-525)
derives the router's `_hasOwnDocument` set from the models of the built
documents; `hasOwnDocument` (lines 495-497) queries it. -/
def hasOwnDocument (st : RouterState) (e : Nat) : Bool :=
  st.docs.any (fun d => d.model == e)

/-- `HtmlOutputRouter.getFullUrl` (html-output.ts lines 487-489). -/
def getFullUrl (st : RouterState) (e : Nat) : Option String :=
  alookup e st.urls

/-- `HtmlOutputRouter.getAnchor` (html-output.ts lines 491-493). -/
def getAnchor (st : RouterState) (e : Nat) : Option String :=
  alookup e st.anchors

/-- Modelled from Node's `path.posix.dirname`, the external stdlib
function used by `setCurrentDocument` (html-output.ts line 484), for the
slash-separated relative paths the router produces: everything before
the last separator, `"."` when there is none. -/
def dirname (p : String) : String :=
  let segs := splitOnSlash p
  if segs.length ≤ 1 then "." else joinSep "/" segs.dropLast

/-- One step of POSIX path resolution: empty and `"."` segments vanish,
`".."` pops, anything else is appended. -/
def resolveStep (acc : List String) (seg : String) : List String :=
  if seg = "" || seg = "." then acc
  else if seg = ".." then acc.dropLast
  else acc ++ [seg]

/-- The segment list of a path resolved against the root, part of the
model of Node's `path.posix.relative` (an external stdlib function used
by `relativeUrl`, html-output.ts line 513). -/
def resolveSegs (p : String) : List String :=
  (splitOnSlash p).foldl resolveStep []

/-- Length of the common prefix of two segment lists. -/
def commonPrefixLen : List String → List String → Nat
  | a :: as, b :: bs => if a = b then commonPrefixLen as bs + 1 else 0
  | _, _ => 0

/-- Modelled from Node's `path.posix.relative` (external stdlib used by
`relativeUrl`): both paths are resolved, the common prefix of their
segment lists is dropped, and the result climbs out of what remains of
the source before descending into what remains of the target. -/
def posixRelative (f t : String) : String :=
  let fs := resolveSegs f
  let ts := resolveSegs t
  let c := commonPrefixLen fs ts
  joinSep "/" (List.replicate (fs.length - c) ".." ++ ts.drop c)

/-- `URL_PREFIX` (html-output.ts line 461): the regex
`(http|ftp)s? : //` anchored at the start matches exactly these four
scheme prefixes. -/
def testUrlScheme (s : String) : Bool :=
  strStartsWith s "http://" || strStartsWith s "https://" ||
    strStartsWith s "ftp://" || strStartsWith s "ftps://"

/-- The slice of `HtmlOutputRouter` instance state that `relativeUrl`
and `setCurrentDocument` read and write (html-output.ts lines 466-484):
the memo map, the render start timestamp, the current document's
directory and the `cacheBust` option. -/
structure RelUrlState where
  absoluteToRelativePathMap : List (String × String)
  location : String
  renderStartTime : Nat
  cacheBustOpt : Bool
  deriving DecidableEq, Repr

/-- `HtmlOutputRouter.setCurrentDocument` (html-output.ts lines
483-485). -/
def setCurrentDocument (st : RelUrlState) (doc : HtmlOutputDocument) :
    RelUrlState :=
  { st with location := dirname doc.filename }

/-- `HtmlOutputRouter.relativeUrl` (html-output.ts lines 504-519).
External URLs pass through; otherwise the memo map is consulted under
the key `location : absolute` with a JS truthiness test (the map never
stores the empty string, see the `or "."` default), and on a miss the
relative path is computed, optionally cache-busted, memoised and
returned. -/
def relativeUrl (st : RelUrlState) (absolute : String) (cacheBust : Bool) :
    String × RelUrlState :=
  if testUrlScheme absolute then (absolute, st)
  else
    let key := st.location ++ ":" ++ absolute
    let cached := (alookup key st.absoluteToRelativePathMap).getD ""
    if cached ≠ "" then (cached, st)
    else
      let path0 := posixRelative st.location absolute
      let path1 := if path0 = "" then "." else path0
      let path2 :=
        if cacheBust && st.cacheBustOpt then
          path1 ++ "?cache=" ++ toString st.renderStartTime
        else path1
      (path2,
        { st with
          absoluteToRelativePathMap :=
            (key, path2) :: st.absoluteToRelativePathMap })

/-- A fresh `HtmlOutputRouter`'s `relativeUrl` state: empty memo map,
empty current location, the construction-time timestamp
(`Date.now()`, html-output.ts line 472) and the configured option. -/
def freshRelUrlState (t : Nat) (cacheBustOpt : Bool) : RelUrlState :=
  ⟨[], "", t, cacheBustOpt⟩

/-- The full mutable state of one `KindFolderHtmlOutputRouter`
instance: the `relativeUrl` slice plus the `readme` option and the
address-table slice. -/
structure KindFolderRouterState where
  rel : RelUrlState
  readme : String
  state : RouterState
  deriving DecidableEq, Repr

/-- A freshly constructed router instance: empty maps, a
construction-time timestamp, the configured options. -/
def freshRouter (t : Nat) (cacheBustOpt : Bool) (readme : String) :
    KindFolderRouterState :=
  ⟨freshRelUrlState t cacheBustOpt, readme, ⟨[], [], []⟩⟩

/-- `buildDocuments` run on a full router instance: only the
address-table slice is touched. -/
def routerBuildDocuments (R : KindFolderRouterState)
    (project : ProjectReflection) : KindFolderRouterState :=
  { R with state := buildDocuments R.readme project }

/-! ### The `Renderer.writeOutput` phase model

`writeOutput` (html-output.ts lines 1278-1345) is orchestration code:
it fires events, awaits asynchronous jobs and the backend, and touches
the filesystem.  It is embedded as a trace-producing interpreter: a
`Behavior` oracle says, for each await/try site, whether that
operation succeeds, and the interpreter returns the ordered list of
observable actions together with whether `writeOutput` returned
normally or an exception escaped it (`Outcome.fault` means an error
propagated out of `writeOutput` as an unhandled fault). -/

/-- How a run of `writeOutput` ends: a normal return, or an exception
escaping the call. -/
inductive Outcome where
  | normal
  | fault
  deriving DecidableEq, Repr

/-- The observable actions of `Renderer.writeOutput`, in program
order. -/
inductive Ev where
  | trigger (name : String)
  | runPreJobs
  | setup
  | buildRouter
  | getDocuments
  | rmDir
  | mkDir
  | setCurrent (i : Nat)
  | render (i : Nat)
  | writeFile (i : Nat)
  | logError (msg : String)
  | logWarn (msg : String)
  | logVerbose
  | logInfo
  | teardown
  | runPostJobs
  deriving DecidableEq, Repr

/-- The environment's responses at each fallible site of a
`writeOutput` run: do the pre-render jobs all resolve, does
`Output.setup` resolve, does `Output.render` resolve for the i-th
document, does `writeFileSync` succeed for the i-th document, do the
recursive delete and the directory creation succeed, does
`Output.teardown` resolve, do the post-render jobs all resolve. -/
structure Behavior where
  preJobsOk : Bool
  setupOk : Bool
  renderOk : Nat → Bool
  writeOk : Nat → Bool
  rmOk : Bool
  mkdirOk : Bool
  teardownOk : Bool
  postJobsOk : Bool

/-- The `Renderer.outputs` registry (html-output.ts lines 1159-1165):
the names with a registered output constructor. -/
def definedOutputs : List String := ["html", "json"]

/-- `Renderer.prepareOutputDirectory` (html-output.ts lines 1364-1387):
optional recursive delete when `cleanOutputDir` is set (failure is a
logged warning), then recursive creation (failure is a logged error);
returns whether the directory is ready. -/
def prepareOutputDirectory (beh : Behavior) (clean : Bool) :
    List Ev × Bool :=
  if clean then
    if !beh.rmOk then
      ([Ev.rmDir, Ev.logWarn "Could not empty the output directory."],
        false)
    else if !beh.mkdirOk then
      ([Ev.rmDir, Ev.mkDir, Ev.logError "Could not create output directory."],
        false)
    else ([Ev.rmDir, Ev.mkDir], true)
  else
    if !beh.mkdirOk then
      ([Ev.mkDir, Ev.logError "Could not create output directory."], false)
    else ([Ev.mkDir], true)

/-- The per-document loop of `writeOutput` (html-output.ts lines
1315-1331): set the router's current document, fire `beginPage`, await
`render` (a rejection escapes `writeOutput`: the `try` only wraps the
write), fire `endPage`, then write inside `try`, logging a failure and
moving on. -/
def renderDocs (beh : Behavior) (docs : List HtmlOutputDocument)
    (i : Nat) : List Ev × Outcome :=
  match docs with
  | [] => ([], Outcome.normal)
  | d :: rest =>
    let evs := [Ev.setCurrent i, Ev.trigger "beginPage", Ev.render i]
    if !beh.renderOk i then (evs, Outcome.fault)
    else
      let evs := evs ++ [Ev.trigger "endPage"] ++
        (if beh.writeOk i then [Ev.writeFile i]
         else [Ev.logError ("Could not write " ++ d.filename)])
      let tail := renderDocs beh rest (i + 1)
      (evs ++ tail.1, tail.2)

/-- The tail of `writeOutput` after directory preparation
(html-output.ts lines 1313-1344): the verbose document count, the
per-document loop, the `endRender` event, `teardown`, the post-render
jobs, and the closing verbose/info logs. -/
def writeOutputTail (beh : Behavior) (docs : List HtmlOutputDocument)
    (tr : List Ev) : List Ev × Outcome :=
  let tr := tr ++ [Ev.logVerbose]
  let loop := renderDocs beh docs 0
  let tr := tr ++ loop.1
  if loop.2 = Outcome.fault then (tr, Outcome.fault)
  else
    let tr := tr ++ [Ev.trigger "endRender", Ev.teardown]
    if !beh.teardownOk then (tr, Outcome.fault)
    else if !beh.postJobsOk then (tr ++ [Ev.runPostJobs], Outcome.fault)
    else (tr ++ [Ev.runPostJobs, Ev.logVerbose, Ev.logInfo], Outcome.normal)

/-- `Renderer.writeOutput` (html-output.ts lines 1278-1345), in program
order: fire `beginRender`, await the pre-render jobs (a rejection
escapes), look the output name up in the registry (unknown: log an
error and return), construct the backend and await `setup` (a rejection
escapes), build the router and the document list, prepare the output
directory when more than one document will be written (on failure:
await `teardown` and return), then hand over to the render loop and the
finalisation phase. -/
def writeOutput (beh : Behavior) (otype : String) (clean : Bool)
    (docs : List HtmlOutputDocument) : List Ev × Outcome :=
  let tr := [Ev.trigger "beginRender", Ev.runPreJobs]
  if !beh.preJobsOk then (tr, Outcome.fault)
  else if !(definedOutputs.contains otype) then
    (tr ++ [Ev.logError ("Skipping output " ++ otype ++
      " as it has not been defined.")], Outcome.normal)
  else
    let tr := tr ++ [Ev.setup]
    if !beh.setupOk then (tr, Outcome.fault)
    else
      let tr := tr ++ [Ev.buildRouter, Ev.getDocuments]
      if docs.length > 1 then
        let pr := prepareOutputDirectory beh clean
        if pr.2 then writeOutputTail beh docs (tr ++ pr.1)
        else
          let tr := tr ++ pr.1 ++ [Ev.teardown]
          if !beh.teardownOk then (tr, Outcome.fault) else (tr, Outcome.normal)
      else writeOutputTail beh docs tr

/-- The environment in which nothing fails: all jobs resolve, the
backend's setup/render/teardown resolve, filesystem operations
succeed. -/
def allOk : Behavior :=
  ⟨true, true, fun _ => true, fun _ => true, true, true, true, true⟩

/-- Is an event a logged error diagnostic? -/
def isLogError : Ev → Bool
  | .logError _ => true
  | _ => false

/-- Is an event a logged diagnostic of any severity? -/
def isLogged : Ev → Bool
  | .logError _ => true
  | .logWarn _ => true
  | .logVerbose => true
  | .logInfo => true
  | _ => false


/-- A small fixture graph: a class with a method child, and a module. -/
def fixtureProject : ProjectReflection :=
  ⟨1, [DeclarationReflection.mk 2 "Foo" ReflectionKind.Class
        [DeclarationReflection.mk 3 "m" ReflectionKind.Method []],
      DeclarationReflection.mk 4 "M" ReflectionKind.Module []]⟩


/-- A fixture with an alias collision: two sibling classes both
aliased `Foo`. -/
def collisionProject : ProjectReflection :=
  ⟨1, [DeclarationReflection.mk 2 "Foo" ReflectionKind.Class [],
      DeclarationReflection.mk 3 "Foo" ReflectionKind.Class []]⟩

/-- A three-document fixture for concrete runs. -/
def threeDocs : List HtmlOutputDocument :=
  [⟨1, 1, "index.html", Template.index⟩,
   ⟨1, 2, "classes/A.html", Template.reflection⟩,
   ⟨1, 3, "classes/B.html", Template.reflection⟩]

/-! ### Bookkeeping functions over the graph, used to state properties
of the traversal. -/

mutual
/-- The identities of all nodes of a subtree, root first. -/
def declIds (r : DeclarationReflection) : List Nat :=
  r.eid :: declIdsList r.children
termination_by sizeOf r
decreasing_by
  simp_wf
  exact sizeOf_children_lt r

/-- The identities of all nodes of a forest. -/
def declIdsList (cs : List DeclarationReflection) : List Nat :=
  match cs with
  | [] => []
  | c :: rest => declIds c ++ declIdsList rest
termination_by sizeOf cs
decreasing_by
  all_goals simp_wf <;> omega
end

mutual
/-- The aliases of all nodes of a subtree, root first. -/
def declAliases (r : DeclarationReflection) : List String :=
  r.getAlias :: declAliasesList r.children
termination_by sizeOf r
decreasing_by
  simp_wf
  exact sizeOf_children_lt r

/-- The aliases of all nodes of a forest. -/
def declAliasesList (cs : List DeclarationReflection) : List String :=
  match cs with
  | [] => []
  | c :: rest => declAliases c ++ declAliasesList rest
termination_by sizeOf cs
decreasing_by
  all_goals simp_wf <;> omega
end

mutual
/-- The (model identity, filename, own alias) of each document the
mapped branch of `buildOutputs` creates below `r`, given the ancestor
aliases `anc`, in traversal order. -/
def outline (anc : List String) (r : DeclarationReflection) :
    List (Nat × String × String) :=
  match kindMappings r.kind with
  | some m =>
    (r.eid, m ++ "/" ++ (getUrl r.getAlias anc ++ ".html"), r.getAlias) ::
      outlineList (r.getAlias :: anc) r.children
  | none => []
termination_by sizeOf r
decreasing_by
  simp_wf
  exact sizeOf_children_lt r

/-- `outline` over a forest. -/
def outlineList (anc : List String) (cs : List DeclarationReflection) :
    List (Nat × String × String) :=
  match cs with
  | [] => []
  | c :: rest => outline anc c ++ outlineList anc rest
termination_by sizeOf cs
decreasing_by
  all_goals simp_wf <;> omega
end


/-- The router state after the root special cases of `buildDocuments`
(html-output.ts lines 540-574), before the children are traversed. -/
def rootState (readme : String) (project : ProjectReflection) :
    RouterState :=
  let st0 : RouterState := ⟨[], [], []⟩
  if !(hasReadme readme) then
    { st0 with
      urls := [(project.eid, "index.html")]
      docs := [⟨project.eid, project.eid, "index.html",
        Template.reflection⟩] }
  else if project.children.all (fun c => c.kindOf ReflectionKind.Module)
  then
    { st0 with
      urls := [(project.eid, "index.html")]
      docs := [⟨project.eid, project.eid, "index.html", Template.index⟩] }
  else
    { st0 with
      urls := [(project.eid, "modules.html")]
      docs := [⟨project.eid, project.eid, "index.html", Template.index⟩,
        ⟨project.eid, project.eid, "modules.html", Template.reflection⟩] }

/-- The directory names `kindMappings` can produce. -/
def mappingDirs : List String :=
  ["classes", "interfaces", "enums", "modules", "types", "functions",
   "variables"]

/-- The resolution-consistency invariant of the address table: every
anchored entity's url is the url of a document-owning container
followed by the hash sign and its anchor, and every document-owning
entity's url is the path of one of its documents. -/
def good (st : RouterState) : Prop :=
  (∀ e a, alookup e st.anchors = some a →
    ∃ c cu, hasOwnDocument st c = true ∧ alookup c st.urls = some cu ∧
      alookup e st.urls = some (cu ++ "#" ++ a)) ∧
  (∀ e, hasOwnDocument st e = true →
    ∃ d, d ∈ st.docs ∧ d.model = e ∧ alookup e st.urls = some d.filename)

/-- The identity `e` appears nowhere in the router state: not as a url
key, not as an anchor key, not as a document model. -/
def keyFree (e : Nat) (st : RouterState) : Prop :=
  (∀ p ∈ st.urls, p.1 ≠ e) ∧ (∀ p ∈ st.anchors, p.1 ≠ e) ∧
    (∀ d ∈ st.docs, d.model ≠ e)

/-! ## Theorems -/

/-- Evaluation of `relativeUrl` on a memo miss. -/
theorem relativeUrl_miss (st : RelUrlState) (a : String) (cb : Bool)
    (h1 : testUrlScheme a = false)
    (h2 : alookup (st.location ++ ":" ++ a) st.absoluteToRelativePathMap =
      none) :
    relativeUrl st a cb =
      ((if cb && st.cacheBustOpt then
          (if posixRelative st.location a = "" then "."
           else posixRelative st.location a) ++ "?cache=" ++
            toString st.renderStartTime
        else
          (if posixRelative st.location a = "" then "."
           else posixRelative st.location a)),
        { st with
          absoluteToRelativePathMap :=
            (st.location ++ ":" ++ a,
              if cb && st.cacheBustOpt then
                (if posixRelative st.location a = "" then "."
                 else posixRelative st.location a) ++ "?cache=" ++
                  toString st.renderStartTime
              else
                (if posixRelative st.location a = "" then "."
                 else posixRelative st.location a)) ::
              st.absoluteToRelativePathMap }) := by
  simp only [relativeUrl, h1, h2, Bool.false_eq_true, if_false,
    Option.getD_none, ne_eq, not_true_eq_false, if_neg]

/-- Evaluation of `relativeUrl` on a memo hit with a non-empty stored
value. -/
theorem relativeUrl_hit (st : RelUrlState) (a : String) (cb : Bool)
    (v : String)
    (h1 : testUrlScheme a = false)
    (h2 : alookup (st.location ++ ":" ++ a) st.absoluteToRelativePathMap =
      some v)
    (h3 : v ≠ "") :
    relativeUrl st a cb = (v, st) := by
  simp [relativeUrl, h1, h2, h3]

theorem alookup_cons_self {α β : Type} [DecidableEq α] (k : α) (v : β)
    (rest : List (α × β)) : alookup k ((k, v) :: rest) = some v := by
  simp [alookup]

theorem str_append_ne_left (s t : String) (h : s ≠ "") : s ++ t ≠ "" := by
  intro he
  apply h
  have hl := congrArg String.length he
  rw [String.length_append] at hl
  have hz : s.length = 0 := by
    have : ("" : String).length = 0 := rfl
    omega
  exact String.ext (List.length_eq_zero.mp hz)

/-- C10: the memoisation key of `relativeUrl` is only (current
directory, target): after a miss computed with one `cacheBust`
argument, a later call with the opposite argument returns the memoised
result of the first call unchanged — with the `?cache=` suffix when the
first call busted, without it when it did not. -/
theorem C10_memo_ignores_cacheBust_argument (st : RelUrlState) (a : String)
    (hext : testUrlScheme a = false)
    (hbust : st.cacheBustOpt = true)
    (hmiss : alookup (st.location ++ ":" ++ a)
      st.absoluteToRelativePathMap = none) :
    ((relativeUrl (relativeUrl st a true).2 a false).1 =
        (relativeUrl st a true).1 ∧
      (relativeUrl st a true).1 =
        (if posixRelative st.location a = "" then "."
         else posixRelative st.location a) ++ "?cache=" ++
          toString st.renderStartTime) ∧
    ((relativeUrl (relativeUrl st a false).2 a true).1 =
        (relativeUrl st a false).1 ∧
      (relativeUrl st a false).1 =
        (if posixRelative st.location a = "" then "."
         else posixRelative st.location a)) := by
  have hp1 : (if posixRelative st.location a = "" then "."
      else posixRelative st.location a) ≠ "" := by
    split
    · decide
    · next h => exact h
  rw [relativeUrl_miss st a true hext hmiss,
    relativeUrl_miss st a false hext hmiss]
  simp only [hbust, Bool.true_and, Bool.false_and, Bool.false_eq_true,
    if_false, if_true]
  refine ⟨⟨?_, trivial⟩, ⟨?_, trivial⟩⟩
  · rw [relativeUrl_hit _ a false _ hext (alookup_cons_self _ _ _)
      (str_append_ne_left _ _ (str_append_ne_left _ _ hp1))]
  · rw [relativeUrl_hit _ a true _ hext (alookup_cons_self _ _ _) hp1]

/-- C10 witness: the concrete instance with directory `classes`,
timestamp 7 and cache-busting enabled. -/
theorem C10_memo_ignores_cacheBust_argument_witness :
    (relativeUrl
      (relativeUrl (RelUrlState.mk [] "classes" 7 true)
        "functions/foo.html" true).2
      "functions/foo.html" false).1 = "../functions/foo.html?cache=7" := by
  have h := C10_memo_ignores_cacheBust_argument
    (RelUrlState.mk [] "classes" 7 true) "functions/foo.html"
    (by decide) rfl rfl
  rw [h.1.1, h.1.2]
  decide

/-- C9: routing is deterministic: running `buildDocuments` on two fresh
router instances (arbitrary construction timestamps) over the same
graph with the same configuration yields identical document lists
(order, filenames, templates) and identical url and anchor maps. -/
theorem C9_buildDocuments_deterministic (t1 t2 : Nat) (cb : Bool)
    (readme : String) (P : ProjectReflection) :
    (routerBuildDocuments (freshRouter t1 cb readme) P).state =
      (routerBuildDocuments (freshRouter t2 cb readme) P).state := rfl

/-- C3 (evaluation at the failing input): `writeOutput` fires the
`beginRender` event and runs the pre-render jobs before the backend
name is even looked up in the registry, so an unknown output name
aborts only after the event has fired and the jobs have run; and for a
known backend the `beginRender` event precedes `setup`, `buildRouter`
and `getDocuments`. -/
theorem C3_begin_event_precedes_backend_resolution :
    writeOutput allOk "markdown" false [] =
      ([Ev.trigger "beginRender", Ev.runPreJobs,
        Ev.logError
          "Skipping output markdown as it has not been defined."],
        Outcome.normal) ∧
    (writeOutput allOk "html" false []).1.take 3 =
      [Ev.trigger "beginRender", Ev.runPreJobs, Ev.setup] := by
  exact ⟨rfl, rfl⟩

/-- C6: with the current document in directory `classes` and a fresh
memo map, `relativeUrl` returns the POSIX relative path:
`functions/foo.html` resolves to `../functions/foo.html` and
`classes/bar.html` to `bar.html`. -/
theorem C6_relativeUrl_posix_relative (st : RelUrlState)
    (d : HtmlOutputDocument)
    (hfn : dirname d.filename = "classes")
    (hmap : st.absoluteToRelativePathMap = []) :
    (relativeUrl (setCurrentDocument st d) "functions/foo.html" false).1 =
      "../functions/foo.html" ∧
    (relativeUrl (setCurrentDocument st d) "classes/bar.html" false).1 =
      "bar.html" := by
  have hloc : (setCurrentDocument st d).location = "classes" := by
    simp [setCurrentDocument, hfn]
  have hm : (setCurrentDocument st d).absoluteToRelativePathMap = [] := by
    simp [setCurrentDocument, hmap]
  constructor <;>
    rw [relativeUrl_miss _ _ _ (by decide)
      (by rw [hloc, hm]; rfl)] <;>
    rw [hloc] <;>
    simp only [Bool.false_and, Bool.false_eq_true, if_false] <;>
    decide

/-- C6 witness: the concrete instance. -/
theorem C6_relativeUrl_posix_relative_witness :
    (relativeUrl
      (setCurrentDocument (freshRelUrlState 0 false)
        ⟨1, 1, "classes/bar.html", Template.reflection⟩)
      "functions/foo.html" false).1 = "../functions/foo.html" ∧
    (relativeUrl
      (setCurrentDocument (freshRelUrlState 0 false)
        ⟨1, 1, "classes/bar.html", Template.reflection⟩)
      "classes/bar.html" false).1 = "bar.html" :=
  C6_relativeUrl_posix_relative (freshRelUrlState 0 false)
    ⟨1, 1, "classes/bar.html", Template.reflection⟩ (by decide) rfl

/-! ### Lemmas about the render loop and the writeOutput phases -/

theorem renderDocs_normal (beh : Behavior) (docs : List HtmlOutputDocument)
    (i : Nat) (hren : ∀ k, beh.renderOk k = true) :
    (renderDocs beh docs i).2 = Outcome.normal := by
  induction docs generalizing i with
  | nil => rfl
  | cons d rest ih =>
    simp only [renderDocs, hren i, Bool.not_true, Bool.false_eq_true,
      if_false]
    exact ih (i + 1)

theorem renderDocs_not_mem (beh : Behavior) (docs : List HtmlOutputDocument)
    (i : Nat) (e : Ev)
    (h1 : ∀ k, e ≠ Ev.setCurrent k) (h2 : ∀ s, e ≠ Ev.trigger s)
    (h3 : ∀ k, e ≠ Ev.render k) (h4 : ∀ k, e ≠ Ev.writeFile k)
    (h5 : ∀ s, e ≠ Ev.logError s) :
    e ∉ (renderDocs beh docs i).1 := by
  induction docs generalizing i with
  | nil => simp [renderDocs]
  | cons d rest ih =>
    intro hmem
    simp only [renderDocs] at hmem
    by_cases hr : beh.renderOk i = true <;>
      by_cases hw : beh.writeOk i = true <;>
      simp only [hr, hw, Bool.not_true, Bool.not_false, Bool.false_eq_true,
        if_false, if_true, List.mem_append, List.mem_cons,
        List.not_mem_nil, or_false] at hmem <;>
      aesop

theorem renderDocs_writeFile_mem (beh : Behavior)
    (docs : List HtmlOutputDocument) (i j : Nat)
    (hren : ∀ k, beh.renderOk k = true) (hj : j < docs.length)
    (hw : beh.writeOk (i + j) = true) :
    Ev.writeFile (i + j) ∈ (renderDocs beh docs i).1 := by
  induction docs generalizing i j with
  | nil => simp at hj
  | cons d rest ih =>
    simp only [renderDocs, hren i, Bool.not_true, Bool.false_eq_true,
      if_false]
    cases j with
    | zero =>
      rw [Nat.add_zero] at hw
      rw [Nat.add_zero]
      simp [hw]
    | succ j2 =>
      have hx : i + (j2 + 1) = (i + 1) + j2 := by omega
      rw [hx] at hw
      rw [hx]
      have := ih (i + 1) j2 (by simpa using hj) hw
      simp [this]

theorem renderDocs_writeFile_not_mem (beh : Behavior)
    (docs : List HtmlOutputDocument) (i j : Nat)
    (hw : beh.writeOk j = false) :
    Ev.writeFile j ∉ (renderDocs beh docs i).1 := by
  induction docs generalizing i with
  | nil => simp [renderDocs]
  | cons d rest ih =>
    intro hmem
    simp only [renderDocs] at hmem
    by_cases hr : beh.renderOk i = true <;>
      by_cases hwi : beh.writeOk i = true <;>
      simp only [hr, hwi, Bool.not_true, Bool.not_false, Bool.false_eq_true,
        if_false, if_true, List.mem_append, List.mem_cons,
        List.not_mem_nil, or_false] at hmem <;>
      aesop

theorem renderDocs_logError_mem (beh : Behavior)
    (docs : List HtmlOutputDocument) (i j : Nat)
    (hren : ∀ k, beh.renderOk k = true) (hj : j < docs.length)
    (hw : beh.writeOk (i + j) = false) :
    ∃ m, Ev.logError m ∈ (renderDocs beh docs i).1 := by
  induction docs generalizing i j with
  | nil => simp at hj
  | cons d rest ih =>
    simp only [renderDocs, hren i, Bool.not_true, Bool.false_eq_true,
      if_false]
    cases j with
    | zero =>
      rw [Nat.add_zero] at hw
      refine ⟨"Could not write " ++ d.filename, ?_⟩
      simp [hw]
    | succ j2 =>
      have hx : i + (j2 + 1) = (i + 1) + j2 := by omega
      rw [hx] at hw
      obtain ⟨m, hm⟩ := ih (i + 1) j2 (by simpa using hj) hw
      refine ⟨m, ?_⟩
      simp [hm]

theorem renderDocs_countP (beh : Behavior) (docs : List HtmlOutputDocument)
    (i j : Nat) (hren : ∀ k, beh.renderOk k = true)
    (hw : ∀ k, beh.writeOk k = (k != j)) :
    (renderDocs beh docs i).1.countP (fun e => isLogError e) =
      if i ≤ j ∧ j < i + docs.length then 1 else 0 := by
  induction docs generalizing i with
  | nil =>
    simp only [renderDocs, List.countP_nil, List.length_nil]
    have h0 : ¬ (i ≤ j ∧ j < i + 0) := by omega
    simp only [Nat.add_zero] at h0
    simp [h0]
  | cons d rest ih =>
    simp only [renderDocs, hren i, Bool.not_true, Bool.false_eq_true,
      if_false, List.length_cons]
    rw [List.countP_append, List.countP_append]
    have hfixed : List.countP (fun e => isLogError e)
        ([Ev.setCurrent i, Ev.trigger "beginPage", Ev.render i] ++
          [Ev.trigger "endPage"]) = 0 := rfl
    rw [hfixed, ih (i + 1)]
    by_cases hij : i = j
    · have hwi : beh.writeOk i = false := by
        rw [hw i, hij]
        simp
      simp only [hwi, Bool.false_eq_true, if_false]
      have h1 : ¬ (i + 1 ≤ j ∧ j < i + 1 + rest.length) := by omega
      have h2 : i ≤ j ∧ j < i + (rest.length + 1) := by omega
      simp [h1, h2, isLogError]
    · have hwi : beh.writeOk i = true := by
        rw [hw i]
        simp [hij]
      simp only [hwi, if_true]
      have hsplit : (i + 1 ≤ j ∧ j < i + 1 + rest.length) ↔
          (i ≤ j ∧ j < i + (rest.length + 1)) := by omega
      by_cases hc : i + 1 ≤ j ∧ j < i + 1 + rest.length
      · simp [hc, hsplit.mp hc, isLogError]
      · have : ¬ (i ≤ j ∧ j < i + (rest.length + 1)) := fun hx =>
          hc (hsplit.mpr hx)
        simp [hc, this, isLogError]

theorem prepare_enum (beh : Behavior) (clean : Bool) :
    (clean = true ∧ beh.rmOk = false ∧ prepareOutputDirectory beh clean =
      ([Ev.rmDir, Ev.logWarn "Could not empty the output directory."],
        false)) ∨
    (clean = true ∧ beh.rmOk = true ∧ beh.mkdirOk = false ∧
      prepareOutputDirectory beh clean =
      ([Ev.rmDir, Ev.mkDir,
        Ev.logError "Could not create output directory."], false)) ∨
    (clean = true ∧ beh.rmOk = true ∧ beh.mkdirOk = true ∧
      prepareOutputDirectory beh clean = ([Ev.rmDir, Ev.mkDir], true)) ∨
    (clean = false ∧ beh.mkdirOk = false ∧
      prepareOutputDirectory beh clean =
      ([Ev.mkDir, Ev.logError "Could not create output directory."],
        false)) ∨
    (clean = false ∧ beh.mkdirOk = true ∧
      prepareOutputDirectory beh clean = ([Ev.mkDir], true)) := by
  unfold prepareOutputDirectory
  cases clean <;> cases hrm : beh.rmOk <;> cases hmk : beh.mkdirOk <;>
    simp [hrm, hmk]

theorem prepare_ok_of_fs_ok (beh : Behavior) (clean : Bool)
    (hrm : beh.rmOk = true) (hmk : beh.mkdirOk = true) :
    (prepareOutputDirectory beh clean).2 = true := by
  unfold prepareOutputDirectory
  cases clean <;> simp [hrm, hmk]

theorem writeOutputTail_mem_tr (beh : Behavior)
    (docs : List HtmlOutputDocument) (tr : List Ev) (e : Ev)
    (he : e ∈ tr) : e ∈ (writeOutputTail beh docs tr).1 := by
  unfold writeOutputTail
  by_cases hl : (renderDocs beh docs 0).2 = Outcome.fault <;>
    by_cases htd : beh.teardownOk = true <;>
    by_cases hpj : beh.postJobsOk = true <;>
    simp [hl, htd, hpj, he]

theorem writeOutputTail_sublist (beh : Behavior)
    (docs : List HtmlOutputDocument) (tr : List Ev) :
    (writeOutputTail beh docs tr).1.Sublist
      (tr ++ [Ev.logVerbose] ++ (renderDocs beh docs 0).1 ++
        [Ev.trigger "endRender", Ev.teardown, Ev.runPostJobs,
          Ev.logVerbose, Ev.logInfo]) := by
  unfold writeOutputTail
  by_cases hl : (renderDocs beh docs 0).2 = Outcome.fault <;>
    by_cases htd : beh.teardownOk = true <;>
    by_cases hpj : beh.postJobsOk = true <;>
    simp only [hl, htd, hpj, Bool.not_true, Bool.not_false,
      Bool.false_eq_true, if_false, if_true, ite_true, ite_false] <;>
    simp only [List.append_assoc] <;>
    (repeat' first
      | exact List.sublist_append_left _ _
      | exact List.Sublist.refl _
      | refine List.Sublist.append_left ?_ _)

theorem writeOutput_cases (beh : Behavior) (otype : String) (clean : Bool)
    (docs : List HtmlOutputDocument)
    (hpre : beh.preJobsOk = true) (hset : beh.setupOk = true)
    (hot : definedOutputs.contains otype = true) :
    (¬ docs.length > 1 ∧ writeOutput beh otype clean docs =
      writeOutputTail beh docs
        [Ev.trigger "beginRender", Ev.runPreJobs, Ev.setup,
          Ev.buildRouter, Ev.getDocuments]) ∨
    (docs.length > 1 ∧ (prepareOutputDirectory beh clean).2 = true ∧
      writeOutput beh otype clean docs =
      writeOutputTail beh docs
        ([Ev.trigger "beginRender", Ev.runPreJobs, Ev.setup,
          Ev.buildRouter, Ev.getDocuments] ++
          (prepareOutputDirectory beh clean).1)) ∨
    (docs.length > 1 ∧ (prepareOutputDirectory beh clean).2 = false ∧
      writeOutput beh otype clean docs =
      ([Ev.trigger "beginRender", Ev.runPreJobs, Ev.setup,
        Ev.buildRouter, Ev.getDocuments] ++
        (prepareOutputDirectory beh clean).1 ++ [Ev.teardown],
        if beh.teardownOk = true then Outcome.normal
        else Outcome.fault)) := by
  have hot2 : otype ∈ definedOutputs := by simpa using hot
  by_cases hlen : docs.length > 1
  · by_cases hpok : (prepareOutputDirectory beh clean).2 = true
    · refine Or.inr (Or.inl ⟨hlen, hpok, ?_⟩)
      simp [writeOutput, hpre, hset, hot, hot2, hlen, hpok]
    · refine Or.inr (Or.inr ⟨hlen, by simpa using hpok, ?_⟩)
      by_cases htd : beh.teardownOk = true <;>
        simp [writeOutput, hpre, hset, hot, hot2, hlen, hpok, htd]
  · refine Or.inl ⟨hlen, ?_⟩
    simp [writeOutput, hpre, hset, hot, hot2, hlen]

theorem writeOutputTail_happy (beh : Behavior)
    (docs : List HtmlOutputDocument) (tr : List Ev)
    (hloop : (renderDocs beh docs 0).2 = Outcome.normal)
    (htd : beh.teardownOk = true) (hpj : beh.postJobsOk = true) :
    writeOutputTail beh docs tr =
      (tr ++ [Ev.logVerbose] ++ (renderDocs beh docs 0).1 ++
        [Ev.trigger "endRender", Ev.teardown, Ev.runPostJobs,
          Ev.logVerbose, Ev.logInfo], Outcome.normal) := by
  unfold writeOutputTail
  simp [hloop, htd, hpj]

/-- C4 counterexample: with a single rejecting pre-render job and every
other operation succeeding, the error escapes `writeOutput` as an
unhandled fault, and nothing at all is logged. -/
theorem C4_prerender_rejection_escapes_unlogged :
    (writeOutput
      (Behavior.mk false true (fun _ => true) (fun _ => true)
        true true true true) "html" false []).2 = Outcome.fault ∧
    ∀ e ∈ (writeOutput
      (Behavior.mk false true (fun _ => true) (fun _ => true)
        true true true true) "html" false []).1, isLogged e = false := by
  have hw : writeOutput
      (Behavior.mk false true (fun _ => true) (fun _ => true)
        true true true true) "html" false [] =
      ([Ev.trigger "beginRender", Ev.runPreJobs], Outcome.fault) := rfl
  rw [hw]
  refine ⟨rfl, ?_⟩
  intro e he
  rcases List.mem_cons.mp he with h | h
  · rw [h]; rfl
  · rcases List.mem_cons.mp h with h2 | h2
    · rw [h2]; rfl
    · exact absurd h2 (List.not_mem_nil e)

/-- C4 as amended: as long as the pre-render jobs, `setup`, every
`render`, `teardown` and the post-render jobs succeed, `writeOutput`
completes normally whatever the backend name, the clean option, the
filesystem and the per-document writes do, and the remaining error
paths are logged: an unknown backend name is a logged error, and a
failed document write is a logged error. -/
theorem C4_handled_errors_logged_and_normal (beh : Behavior)
    (otype : String) (clean : Bool) (docs : List HtmlOutputDocument)
    (hpre : beh.preJobsOk = true) (hset : beh.setupOk = true)
    (hren : ∀ k, beh.renderOk k = true)
    (htd : beh.teardownOk = true) (hpj : beh.postJobsOk = true) :
    (writeOutput beh otype clean docs).2 = Outcome.normal ∧
    (definedOutputs.contains otype = false →
      writeOutput beh otype clean docs =
        ([Ev.trigger "beginRender", Ev.runPreJobs,
          Ev.logError ("Skipping output " ++ otype ++
            " as it has not been defined.")], Outcome.normal)) ∧
    (∀ j, definedOutputs.contains otype = true →
      (docs.length > 1 → (prepareOutputDirectory beh clean).2 = true) →
      j < docs.length → beh.writeOk j = false →
      ∃ m, Ev.logError m ∈ (writeOutput beh otype clean docs).1) := by
  have hloop : (renderDocs beh docs 0).2 = Outcome.normal :=
    renderDocs_normal beh docs 0 hren
  refine ⟨?_, ?_, ?_⟩
  · by_cases hot : definedOutputs.contains otype = true
    · rcases writeOutput_cases beh otype clean docs hpre hset hot with
        ⟨_, heq⟩ | ⟨_, _, heq⟩ | ⟨_, _, heq⟩ <;> rw [heq]
      · rw [writeOutputTail_happy beh docs _ hloop htd hpj]
      · rw [writeOutputTail_happy beh docs _ hloop htd hpj]
      · simp [htd]
    · have hot2 : otype ∉ definedOutputs := by
        intro hm
        exact hot (by simpa using hm)
      simp [writeOutput, hpre, hot2]
  · intro hot
    have hot2 : otype ∉ definedOutputs := by
      intro hm
      have : definedOutputs.contains otype = true := by simpa using hm
      rw [this] at hot
      exact Bool.noConfusion hot
    simp [writeOutput, hpre, hot2]
  · intro j hot hprep hj hwj
    obtain ⟨m, hm⟩ := renderDocs_logError_mem beh docs 0 j hren hj
      (by simpa using hwj)
    refine ⟨m, ?_⟩
    rcases writeOutput_cases beh otype clean docs hpre hset hot with
      ⟨hlen, heq⟩ | ⟨hlen, hpok, heq⟩ | ⟨hlen, hpok, heq⟩
    · rw [heq, writeOutputTail_happy beh docs _ hloop htd hpj]
      simp [hm]
    · rw [heq, writeOutputTail_happy beh docs _ hloop htd hpj]
      simp [hm]
    · rw [hprep hlen] at hpok
      exact Bool.noConfusion hpok

/-- C4 witness: a normally completing run obtained from the amended
theorem at a concrete input (an unknown backend name with everything
succeeding). -/
theorem C4_handled_errors_logged_and_normal_witness :
    (writeOutput allOk "markdown2" true []).2 = Outcome.normal :=
  (C4_handled_errors_logged_and_normal allOk "markdown2" true []
    rfl rfl (fun _ => rfl) rfl rfl).1

/-- C7: when exactly one document's write fails (index `j`) and
everything else succeeds, that failure is logged exactly once, the
failing document's write event is absent, every other document is still
written, the `endRender` event still fires and `writeOutput` completes
normally. -/
theorem C7_write_failure_isolated (beh : Behavior) (otype : String)
    (clean : Bool) (docs : List HtmlOutputDocument) (j : Nat)
    (hpre : beh.preJobsOk = true) (hset : beh.setupOk = true)
    (hot : definedOutputs.contains otype = true)
    (hrm : beh.rmOk = true) (hmk : beh.mkdirOk = true)
    (htd : beh.teardownOk = true) (hpj : beh.postJobsOk = true)
    (hren : ∀ k, beh.renderOk k = true)
    (hw : ∀ k, beh.writeOk k = (k != j)) (hj : j < docs.length) :
    (writeOutput beh otype clean docs).2 = Outcome.normal ∧
    Ev.trigger "endRender" ∈ (writeOutput beh otype clean docs).1 ∧
    Ev.writeFile j ∉ (writeOutput beh otype clean docs).1 ∧
    (∀ k, k < docs.length → k ≠ j →
      Ev.writeFile k ∈ (writeOutput beh otype clean docs).1) ∧
    (writeOutput beh otype clean docs).1.countP
      (fun e => isLogError e) = 1 := by
  have hloop : (renderDocs beh docs 0).2 = Outcome.normal :=
    renderDocs_normal beh docs 0 hren
  have hpok : (prepareOutputDirectory beh clean).2 = true :=
    prepare_ok_of_fs_ok beh clean hrm hmk
  have hprep : ∀ e ∈ (prepareOutputDirectory beh clean).1,
      e = Ev.rmDir ∨ e = Ev.mkDir := by
    rcases prepare_enum beh clean with
      ⟨_, _, hpe⟩ | ⟨_, _, _, hpe⟩ | ⟨_, _, _, hpe⟩ | ⟨_, _, hpe⟩ |
      ⟨_, _, hpe⟩ <;> rw [hpe] at hpok ⊢ <;> first
        | exact Bool.noConfusion hpok
        | (intro e he
           simp only [List.mem_cons, List.not_mem_nil, or_false] at he
           tauto)
  obtain ⟨pfx, hpfxsh, heq⟩ :
      ∃ pfx, (∀ e ∈ pfx, ¬ isLogError e = true ∧
        (∀ k : Nat, e ≠ Ev.writeFile k)) ∧
        writeOutput beh otype clean docs =
          (pfx ++ [Ev.logVerbose] ++ (renderDocs beh docs 0).1 ++
            [Ev.trigger "endRender", Ev.teardown, Ev.runPostJobs,
              Ev.logVerbose, Ev.logInfo], Outcome.normal) := by
    rcases writeOutput_cases beh otype clean docs hpre hset hot with
      ⟨hlen, hq⟩ | ⟨hlen, _, hq⟩ | ⟨hlen, hx, hq⟩
    · refine ⟨[Ev.trigger "beginRender", Ev.runPreJobs, Ev.setup,
        Ev.buildRouter, Ev.getDocuments], ?_, ?_⟩
      · intro e he
        simp only [List.mem_cons, List.not_mem_nil, or_false] at he
        rcases he with h | h | h | h | h <;> subst h <;>
          exact ⟨by simp [isLogError], fun k hk => Ev.noConfusion hk⟩
      · rw [hq, writeOutputTail_happy beh docs _ hloop htd hpj]
    · refine ⟨[Ev.trigger "beginRender", Ev.runPreJobs, Ev.setup,
        Ev.buildRouter, Ev.getDocuments] ++
          (prepareOutputDirectory beh clean).1, ?_, ?_⟩
      · intro e he
        rcases List.mem_append.mp he with h | h
        · simp only [List.mem_cons, List.not_mem_nil, or_false] at h
          rcases h with h | h | h | h | h <;> subst h <;>
            exact ⟨by simp [isLogError], fun k hk => Ev.noConfusion hk⟩
        · rcases hprep e h with h2 | h2 <;> subst h2 <;>
            exact ⟨by simp [isLogError], fun k hk => Ev.noConfusion hk⟩
      · rw [hq, writeOutputTail_happy beh docs _ hloop htd hpj]
    · rw [hpok] at hx
      exact Bool.noConfusion hx
  rw [heq]
  refine ⟨rfl, ?_, ?_, ?_, ?_⟩
  · simp
  · intro hmem
    simp only [List.append_assoc, List.mem_append] at hmem
    rcases hmem with h | h
    · exact (hpfxsh _ h).2 j rfl
    · rcases h with h | h
      · simp at h
      · rcases h with h | h
        · exact renderDocs_writeFile_not_mem beh docs 0 j
            (by rw [hw j]; simp) h
        · simp at h
  · intro k hk hkj
    have hmem := renderDocs_writeFile_mem beh docs 0 k hren hk
      (by rw [Nat.zero_add, hw k]; simpa using hkj)
    rw [Nat.zero_add] at hmem
    simp only [List.append_assoc, List.mem_append]
    tauto
  · rw [List.countP_append, List.countP_append, List.countP_append]
    have h1 : pfx.countP (fun e => isLogError e) = 0 :=
      List.countP_eq_zero.mpr (fun e he => by
        simpa using (hpfxsh e he).1)
    have h2 : List.countP (fun e => isLogError e) [Ev.logVerbose] = 0 :=
      rfl
    have h3 : List.countP (fun e => isLogError e)
        [Ev.trigger "endRender", Ev.teardown, Ev.runPostJobs,
          Ev.logVerbose, Ev.logInfo] = 0 := rfl
    have h4 := renderDocs_countP beh docs 0 j hren hw
    have h5 : (0 ≤ j ∧ j < 0 + docs.length) := ⟨Nat.zero_le j, by omega⟩
    rw [h1, h2, h3, h4, if_pos h5]

/-- C7 witness: three documents, the write of the second one failing. -/
theorem C7_write_failure_isolated_witness :
    (writeOutput
      (Behavior.mk true true (fun _ => true) (fun k => k != 1)
        true true true true) "html" false threeDocs).2 =
      Outcome.normal ∧
    Ev.writeFile 1 ∉ (writeOutput
      (Behavior.mk true true (fun _ => true) (fun k => k != 1)
        true true true true) "html" false threeDocs).1 ∧
    (writeOutput
      (Behavior.mk true true (fun _ => true) (fun k => k != 1)
        true true true true) "html" false threeDocs).1.countP
      (fun e => isLogError e) = 1 := by
  have h := C7_write_failure_isolated
    (Behavior.mk true true (fun _ => true) (fun k => k != 1)
      true true true true) "html" false threeDocs 1
    rfl rfl (by decide) rfl rfl rfl rfl (fun _ => rfl) (fun _ => rfl)
    (by decide)
  exact ⟨h.1, h.2.2.1, h.2.2.2.2⟩

theorem rmDir_mem_prepare (beh : Behavior) (clean : Bool) :
    Ev.rmDir ∈ (prepareOutputDirectory beh clean).1 ↔ clean = true := by
  unfold prepareOutputDirectory
  cases clean <;> cases hrm : beh.rmOk <;> cases hmk : beh.mkdirOk <;>
    simp [hrm, hmk]

theorem prepare_ev_shape (beh : Behavior) (clean : Bool) :
    ∀ e ∈ (prepareOutputDirectory beh clean).1,
      e = Ev.rmDir ∨ e = Ev.mkDir ∨ (∃ m, e = Ev.logWarn m) ∨
        (∃ m, e = Ev.logError m) := by
  unfold prepareOutputDirectory
  cases clean <;> cases hrm : beh.rmOk <;> cases hmk : beh.mkdirOk <;>
    intro e he <;> simp [hrm, hmk] at he <;> aesop

theorem writeOutputTail_mem_cases (beh : Behavior)
    (docs : List HtmlOutputDocument) (tr : List Ev) (e : Ev)
    (he : e ∈ (writeOutputTail beh docs tr).1) :
    e ∈ tr ∨ e ∈ (renderDocs beh docs 0).1 ∨
      e ∈ [Ev.logVerbose, Ev.trigger "endRender", Ev.teardown,
        Ev.runPostJobs, Ev.logInfo] := by
  have h := (writeOutputTail_sublist beh docs tr).subset he
  simp only [List.append_assoc, List.mem_append, List.mem_cons,
    List.not_mem_nil, or_false] at h ⊢
  tauto

/-- C8: the output directory is prepared (recursive clean exactly when
the clean option is set, then creation) if and only if more than one
document will be written; and when preparation fails, no document is
rendered or written, but the backend's teardown is still invoked and
`writeOutput` still returns normally. -/
theorem C8_directory_preparation (beh : Behavior) (otype : String)
    (clean : Bool) (docs : List HtmlOutputDocument)
    (hpre : beh.preJobsOk = true) (hset : beh.setupOk = true)
    (hot : definedOutputs.contains otype = true) :
    (Ev.rmDir ∈ (writeOutput beh otype clean docs).1 ↔
      (docs.length > 1 ∧ clean = true)) ∧
    (Ev.mkDir ∈ (writeOutput beh otype clean docs).1 →
      docs.length > 1) ∧
    (clean = true → beh.rmOk = true → beh.mkdirOk = true →
      prepareOutputDirectory beh clean = ([Ev.rmDir, Ev.mkDir], true)) ∧
    (docs.length > 1 → (prepareOutputDirectory beh clean).2 = false →
      (∀ i, Ev.render i ∉ (writeOutput beh otype clean docs).1 ∧
        Ev.writeFile i ∉ (writeOutput beh otype clean docs).1) ∧
      Ev.teardown ∈ (writeOutput beh otype clean docs).1 ∧
      (beh.teardownOk = true →
        (writeOutput beh otype clean docs).2 = Outcome.normal)) := by
  have hordc : clean = true → beh.rmOk = true → beh.mkdirOk = true →
      prepareOutputDirectory beh clean = ([Ev.rmDir, Ev.mkDir], true) := by
    intro hc hrm hmk
    subst hc
    unfold prepareOutputDirectory
    simp [hrm, hmk]
  have htr0 : ∀ e ∈ [Ev.trigger "beginRender", Ev.runPreJobs, Ev.setup,
      Ev.buildRouter, Ev.getDocuments], e ≠ Ev.rmDir ∧ e ≠ Ev.mkDir ∧
      (∀ k : Nat, e ≠ Ev.render k ∧ e ≠ Ev.writeFile k) := by
    intro e he
    simp only [List.mem_cons, List.not_mem_nil, or_false] at he
    rcases he with h | h | h | h | h <;> subst h <;>
      exact ⟨fun hk => Ev.noConfusion hk, fun hk => Ev.noConfusion hk,
        fun k => ⟨fun hk => Ev.noConfusion hk,
          fun hk => Ev.noConfusion hk⟩⟩
  have hloopno : Ev.rmDir ∉ (renderDocs beh docs 0).1 :=
    renderDocs_not_mem beh docs 0 Ev.rmDir
      (fun _ h => Ev.noConfusion h) (fun _ h => Ev.noConfusion h)
      (fun _ h => Ev.noConfusion h) (fun _ h => Ev.noConfusion h)
      (fun _ h => Ev.noConfusion h)
  have hloopno2 : Ev.mkDir ∉ (renderDocs beh docs 0).1 :=
    renderDocs_not_mem beh docs 0 Ev.mkDir
      (fun _ h => Ev.noConfusion h) (fun _ h => Ev.noConfusion h)
      (fun _ h => Ev.noConfusion h) (fun _ h => Ev.noConfusion h)
      (fun _ h => Ev.noConfusion h)
  rcases writeOutput_cases beh otype clean docs hpre hset hot with
    ⟨hlen, heq⟩ | ⟨hlen, hpok, heq⟩ | ⟨hlen, hpok, heq⟩
  · refine ⟨?_, ?_, hordc, ?_⟩
    · constructor
      · intro hmem
        rw [heq] at hmem
        rcases writeOutputTail_mem_cases beh docs _ _ hmem with
          h | h | h
        · exact absurd rfl (htr0 _ h).1
        · exact absurd h hloopno
        · simp at h
      · intro hc
        exact absurd hc.1 hlen
    · intro hmem
      rw [heq] at hmem
      rcases writeOutputTail_mem_cases beh docs _ _ hmem with h | h | h
      · exact absurd rfl (htr0 _ h).2.1
      · exact absurd h hloopno2
      · simp at h
    · intro hl
      exact absurd hl hlen
  · refine ⟨?_, fun _ => hlen, hordc, ?_⟩
    · constructor
      · intro hmem
        rw [heq] at hmem
        refine ⟨hlen, ?_⟩
        rcases writeOutputTail_mem_cases beh docs _ _ hmem with
          h | h | h
        · rcases List.mem_append.mp h with h2 | h2
          · exact absurd rfl (htr0 _ h2).1
          · exact (rmDir_mem_prepare beh clean).mp h2
        · exact absurd h hloopno
        · simp at h
      · intro hc
        rw [heq]
        refine writeOutputTail_mem_tr beh docs _ _ ?_
        refine List.mem_append.mpr (Or.inr ?_)
        exact (rmDir_mem_prepare beh clean).mpr hc.2
    · intro _ hpf
      rw [hpf] at hpok
      exact Bool.noConfusion hpok
  · refine ⟨?_, fun _ => hlen, hordc, ?_⟩
    · constructor
      · intro hmem
        rw [heq] at hmem
        refine ⟨hlen, ?_⟩
        simp only [List.append_assoc, List.mem_append, List.mem_cons,
          List.not_mem_nil, or_false] at hmem
        rcases hmem with h | h | h
        · rcases htr0 _ (by simp; exact h) with ⟨hx, _, _⟩
          exact absurd rfl hx
        · exact (rmDir_mem_prepare beh clean).mp h
        · exact Ev.noConfusion h
      · intro hc
        rw [heq]
        simp only [List.append_assoc, List.mem_append]
        exact Or.inr (Or.inl ((rmDir_mem_prepare beh clean).mpr hc.2))
    · intro _ _
      refine ⟨?_, ?_, ?_⟩
      · intro i
        constructor
        · intro hmem
          rw [heq] at hmem
          simp only [List.append_assoc, List.mem_append, List.mem_cons,
            List.not_mem_nil, or_false] at hmem
          rcases hmem with h | h | h
          · exact absurd rfl ((htr0 _ (by simpa using h)).2.2 i).1
          · rcases prepare_ev_shape beh clean _ h with
              h2 | h2 | ⟨m, h2⟩ | ⟨m, h2⟩ <;> exact Ev.noConfusion h2
          · exact Ev.noConfusion h
        · intro hmem
          rw [heq] at hmem
          simp only [List.append_assoc, List.mem_append, List.mem_cons,
            List.not_mem_nil, or_false] at hmem
          rcases hmem with h | h | h
          · exact absurd rfl ((htr0 _ (by simpa using h)).2.2 i).2
          · rcases prepare_ev_shape beh clean _ h with
              h2 | h2 | ⟨m, h2⟩ | ⟨m, h2⟩ <;> exact Ev.noConfusion h2
          · exact Ev.noConfusion h
      · rw [heq]
        simp
      · intro htd
        rw [heq]
        simp [htd]

/-- C8 witness: three documents with the clean option set and a failing
recursive delete — the delete is attempted, nothing is rendered, and
the run still ends normally after teardown. -/
theorem C8_directory_preparation_witness :
    Ev.rmDir ∈ (writeOutput
      (Behavior.mk true true (fun _ => true) (fun _ => true)
        false true true true) "html" true threeDocs).1 ∧
    (writeOutput
      (Behavior.mk true true (fun _ => true) (fun _ => true)
        false true true true) "html" true threeDocs).2 =
      Outcome.normal := by
  have h := C8_directory_preparation
    (Behavior.mk true true (fun _ => true) (fun _ => true)
      false true true true) "html" true threeDocs rfl rfl rfl
  exact ⟨(h.1).mpr ⟨by decide, rfl⟩, (h.2.2.2 (by decide) rfl).2.2 rfl⟩

/-! ### Shape of the traversal state updates -/

theorem alookup_append_of_keys {β : Type} (nu old : List (Nat × β))
    (k : Nat) (h : ∀ p ∈ nu, p.1 ≠ k) :
    alookup k (nu ++ old) = alookup k old := by
  induction nu with
  | nil => rfl
  | cons p rest ih =>
    have hp : p.1 ≠ k := h p (List.mem_cons_self p rest)
    cases p with
    | mk k2 v =>
      simp only [List.cons_append, alookup]
      rw [if_neg hp]
      exact ih (fun q hq => h q (List.mem_cons_of_mem _ hq))

mutual
theorem applyAnchorUrl_shape (cEid : Nat) (ancRel : List String)
    (r : DeclarationReflection) (st : RouterState) :
    ∃ nu na,
      (applyAnchorUrl cEid ancRel r st).urls = nu ++ st.urls ∧
      (applyAnchorUrl cEid ancRel r st).anchors = na ++ st.anchors ∧
      (applyAnchorUrl cEid ancRel r st).docs = st.docs ∧
      (∀ p ∈ nu, p.1 ∈ declIds r) ∧ (∀ p ∈ na, p.1 ∈ declIds r) := by
  rw [applyAnchorUrl]
  obtain ⟨nu, na, h1, h2, h3, h4, h5⟩ :=
    applyAnchorUrlList_shape cEid (r.getAlias :: ancRel) r.children
      { st with
        urls := (r.eid, jsStr (alookup cEid st.urls) ++ "#" ++
          getUrl r.getAlias ancRel) :: st.urls
        anchors := (r.eid, getUrl r.getAlias ancRel) :: st.anchors }
  refine ⟨nu ++ [(r.eid, jsStr (alookup cEid st.urls) ++ "#" ++
    getUrl r.getAlias ancRel)],
    na ++ [(r.eid, getUrl r.getAlias ancRel)], ?_, ?_, ?_, ?_, ?_⟩
  · rw [h1]
    simp
  · rw [h2]
    simp
  · rw [h3]
  · intro p hp
    rcases List.mem_append.mp hp with h | h
    · have := h4 p h
      rw [declIds]
      exact List.mem_cons_of_mem _ this
    · simp only [List.mem_cons, List.not_mem_nil, or_false] at h
      rw [h, declIds]
      exact List.mem_cons_self _ _
  · intro p hp
    rcases List.mem_append.mp hp with h | h
    · have := h5 p h
      rw [declIds]
      exact List.mem_cons_of_mem _ this
    · simp only [List.mem_cons, List.not_mem_nil, or_false] at h
      rw [h, declIds]
      exact List.mem_cons_self _ _
termination_by sizeOf r
decreasing_by
  simp_wf
  exact sizeOf_children_lt r

theorem applyAnchorUrlList_shape (cEid : Nat) (ancRel : List String)
    (cs : List DeclarationReflection) (st : RouterState) :
    ∃ nu na,
      (applyAnchorUrlList cEid ancRel cs st).urls = nu ++ st.urls ∧
      (applyAnchorUrlList cEid ancRel cs st).anchors = na ++ st.anchors ∧
      (applyAnchorUrlList cEid ancRel cs st).docs = st.docs ∧
      (∀ p ∈ nu, p.1 ∈ declIdsList cs) ∧
      (∀ p ∈ na, p.1 ∈ declIdsList cs) := by
  match cs with
  | [] =>
    refine ⟨[], [], ?_, ?_, ?_, ?_, ?_⟩ <;> simp [applyAnchorUrlList]
  | c :: rest =>
    rw [applyAnchorUrlList]
    obtain ⟨nu1, na1, h11, h12, h13, h14, h15⟩ :=
      applyAnchorUrl_shape cEid ancRel c st
    obtain ⟨nu2, na2, h21, h22, h23, h24, h25⟩ :=
      applyAnchorUrlList_shape cEid ancRel rest
        (applyAnchorUrl cEid ancRel c st)
    refine ⟨nu2 ++ nu1, na2 ++ na1, ?_, ?_, ?_, ?_, ?_⟩
    · rw [h21, h11, List.append_assoc]
    · rw [h22, h12, List.append_assoc]
    · rw [h23, h13]
    · intro p hp
      rw [declIdsList]
      rcases List.mem_append.mp hp with h | h
      · exact List.mem_append.mpr (Or.inr (h24 p h))
      · exact List.mem_append.mpr (Or.inl (h14 p h))
    · intro p hp
      rw [declIdsList]
      rcases List.mem_append.mp hp with h | h
      · exact List.mem_append.mpr (Or.inr (h25 p h))
      · exact List.mem_append.mpr (Or.inl (h15 p h))
termination_by sizeOf cs
decreasing_by
  all_goals simp_wf <;> omega
end

mutual
theorem buildOutputs_shape (projEid parentEid : Nat) (anc : List String)
    (r : DeclarationReflection) (st : RouterState) :
    ∃ nu na,
      (buildOutputs projEid parentEid anc r st).urls = nu ++ st.urls ∧
      (buildOutputs projEid parentEid anc r st).anchors =
        na ++ st.anchors ∧
      (buildOutputs projEid parentEid anc r st).docs =
        st.docs ++ (outline anc r).map
          (fun x => ⟨projEid, x.1, x.2.1, Template.reflection⟩) ∧
      (∀ p ∈ nu, p.1 ∈ declIds r) ∧ (∀ p ∈ na, p.1 ∈ declIds r) := by
  rw [buildOutputs, outline]
  cases hmap : kindMappings r.kind with
  | none =>
    obtain ⟨nu, na, h1, h2, h3, h4, h5⟩ :=
      applyAnchorUrl_shape parentEid [] r st
    exact ⟨nu, na, h1, h2, by rw [h3]; simp, h4, h5⟩
  | some m =>
    obtain ⟨nu, na, h1, h2, h3, h4, h5⟩ :=
      buildOutputsList_shape projEid r.eid (r.getAlias :: anc) r.children
        { st with
          docs := st.docs ++ [⟨projEid, r.eid,
            m ++ "/" ++ (getUrl r.getAlias anc ++ ".html"),
            Template.reflection⟩]
          urls := (r.eid, m ++ "/" ++ (getUrl r.getAlias anc ++ ".html"))
            :: st.urls }
    refine ⟨nu ++ [(r.eid,
      m ++ "/" ++ (getUrl r.getAlias anc ++ ".html"))], na, ?_, ?_, ?_,
      ?_, ?_⟩
    · rw [h1]
      simp
    · rw [h2]
    · rw [h3]
      simp [List.append_assoc]
    · intro p hp
      rcases List.mem_append.mp hp with h | h
      · have := h4 p h
        rw [declIds]
        exact List.mem_cons_of_mem _ this
      · simp only [List.mem_cons, List.not_mem_nil, or_false] at h
        rw [h, declIds]
        exact List.mem_cons_self _ _
    · intro p hp
      have := h5 p hp
      rw [declIds]
      exact List.mem_cons_of_mem _ this
termination_by sizeOf r
decreasing_by
  simp_wf
  exact sizeOf_children_lt r

theorem buildOutputsList_shape (projEid parentEid : Nat)
    (anc : List String) (cs : List DeclarationReflection)
    (st : RouterState) :
    ∃ nu na,
      (buildOutputsList projEid parentEid anc cs st).urls =
        nu ++ st.urls ∧
      (buildOutputsList projEid parentEid anc cs st).anchors =
        na ++ st.anchors ∧
      (buildOutputsList projEid parentEid anc cs st).docs =
        st.docs ++ (outlineList anc cs).map
          (fun x => ⟨projEid, x.1, x.2.1, Template.reflection⟩) ∧
      (∀ p ∈ nu, p.1 ∈ declIdsList cs) ∧
      (∀ p ∈ na, p.1 ∈ declIdsList cs) := by
  match cs with
  | [] =>
    refine ⟨[], [], ?_, ?_, ?_, ?_, ?_⟩ <;>
      simp [buildOutputsList, outlineList]
  | c :: rest =>
    rw [buildOutputsList]
    obtain ⟨nu1, na1, h11, h12, h13, h14, h15⟩ :=
      buildOutputs_shape projEid parentEid anc c st
    obtain ⟨nu2, na2, h21, h22, h23, h24, h25⟩ :=
      buildOutputsList_shape projEid parentEid anc rest
        (buildOutputs projEid parentEid anc c st)
    refine ⟨nu2 ++ nu1, na2 ++ na1, ?_, ?_, ?_, ?_, ?_⟩
    · rw [h21, h11, List.append_assoc]
    · rw [h22, h12, List.append_assoc]
    · rw [h23, h13, outlineList]
      simp [List.append_assoc]
    · intro p hp
      rw [declIdsList]
      rcases List.mem_append.mp hp with h | h
      · exact List.mem_append.mpr (Or.inr (h24 p h))
      · exact List.mem_append.mpr (Or.inl (h14 p h))
    · intro p hp
      rw [declIdsList]
      rcases List.mem_append.mp hp with h | h
      · exact List.mem_append.mpr (Or.inr (h25 p h))
      · exact List.mem_append.mpr (Or.inl (h15 p h))
termination_by sizeOf cs
decreasing_by
  all_goals simp_wf <;> omega
end

theorem buildDocuments_eq_root (readme : String) (P : ProjectReflection) :
    buildDocuments readme P =
      buildOutputsList P.eid P.eid [] P.children (rootState readme P) :=
  rfl

theorem alookup_mem {α β : Type} [DecidableEq α] (k : α) (v : β)
    (l : List (α × β)) (h : alookup k l = some v) : (k, v) ∈ l := by
  induction l with
  | nil => exact absurd h (by simp [alookup])
  | cons p rest ih =>
    cases p with
    | mk k2 v2 =>
      by_cases hk : k2 = k
      · subst hk
        simp [alookup] at h
        subst h
        exact List.mem_cons_self _ _
      · rw [alookup, if_neg hk] at h
        exact List.mem_cons_of_mem _ (ih h)

theorem alookup_cons_ne {α β : Type} [DecidableEq α] (k k2 : α) (v : β)
    (l : List (α × β)) (h : k2 ≠ k) :
    alookup k ((k2, v) :: l) = alookup k l := by
  rw [alookup, if_neg h]

mutual
theorem outline_spec (anc : List String) (r : DeclarationReflection) :
    ((outline anc r).map (fun x => x.1)).Sublist (declIds r) ∧
    ((outline anc r).map (fun x => x.2.2)).Sublist (declAliases r) ∧
    (∀ x ∈ outline anc r, ∃ m ancx,
      x.2.1 = m ++ "/" ++ (getUrl x.2.2 ancx ++ ".html") ∧
      m ∈ mappingDirs) := by
  rw [outline, declIds, declAliases]
  cases hmap : kindMappings r.kind with
  | none =>
    refine ⟨?_, ?_, ?_⟩ <;> simp
  | some m =>
    obtain ⟨h1, h2, h3⟩ :=
      outlineList_spec (r.getAlias :: anc) r.children
    refine ⟨?_, ?_, ?_⟩
    · simp only [List.map_cons]
      exact List.Sublist.cons₂ _ h1
    · simp only [List.map_cons]
      exact List.Sublist.cons₂ _ h2
    · intro x hx
      rcases List.mem_cons.mp hx with h | h
      · subst h
        refine ⟨m, anc, rfl, ?_⟩
        cases r with
        | mk e a k cs =>
          simp only [DeclarationReflection.kind] at hmap
          cases k <;> simp only [kindMappings, Option.some.injEq,
              reduceCtorEq] at hmap <;> subst hmap <;> decide
      · exact h3 x h
termination_by sizeOf r
decreasing_by
  simp_wf
  exact sizeOf_children_lt r

theorem outlineList_spec (anc : List String)
    (cs : List DeclarationReflection) :
    ((outlineList anc cs).map (fun x => x.1)).Sublist (declIdsList cs) ∧
    ((outlineList anc cs).map (fun x => x.2.2)).Sublist
      (declAliasesList cs) ∧
    (∀ x ∈ outlineList anc cs, ∃ m ancx,
      x.2.1 = m ++ "/" ++ (getUrl x.2.2 ancx ++ ".html") ∧
      m ∈ mappingDirs) := by
  match cs with
  | [] =>
    rw [outlineList, declIdsList, declAliasesList]
    exact ⟨List.Sublist.refl _, List.Sublist.refl _, by simp⟩
  | c :: rest =>
    rw [outlineList, declIdsList, declAliasesList]
    obtain ⟨h1, h2, h3⟩ := outline_spec anc c
    obtain ⟨g1, g2, g3⟩ := outlineList_spec anc rest
    refine ⟨?_, ?_, ?_⟩
    · simp only [List.map_append]
      exact List.Sublist.append h1 g1
    · simp only [List.map_append]
      exact List.Sublist.append h2 g2
    · intro x hx
      rcases List.mem_append.mp hx with h | h
      · exact h3 x h
      · exact g3 x h
termination_by sizeOf cs
decreasing_by
  all_goals simp_wf <;> omega
end

theorem outline_filename_slash (anc : List String)
    (cs : List DeclarationReflection) :
    ∀ x ∈ outlineList anc cs, ('/' : Char) ∈ x.2.1.data := by
  intro x hx
  obtain ⟨m, ancx, hshape, _⟩ := (outlineList_spec anc cs).2.2 x hx
  rw [hshape, String.data_append, String.data_append]
  refine List.mem_append.mpr (Or.inl (List.mem_append.mpr (Or.inr ?_)))
  exact List.mem_singleton.mpr rfl

/-- C2: the exact root case analysis of `buildDocuments`: with readme
"none" a single root document `index.html` with the reflection template
and root url `index.html`; with a readme and only module children, a
single root document `index.html` with the index template and no
`modules.html` anywhere; with a readme and mixed children, exactly the
two root documents `index.html` (index template) and `modules.html`
(reflection template), with the root's url `modules.html`. -/
theorem C2_root_document_cases (readme : String) (P : ProjectReflection)
    (hwf : P.eid ∉ declIdsList P.children) :
    (hasReadme readme = false →
      (buildDocuments readme P).docs.filter
          (fun d => d.model == P.eid) =
        [⟨P.eid, P.eid, "index.html", Template.reflection⟩] ∧
      getFullUrl (buildDocuments readme P) P.eid = some "index.html") ∧
    (hasReadme readme = true →
      P.children.all (fun c => c.kindOf ReflectionKind.Module) = true →
      (buildDocuments readme P).docs.filter
          (fun d => d.model == P.eid) =
        [⟨P.eid, P.eid, "index.html", Template.index⟩] ∧
      (∀ d ∈ (buildDocuments readme P).docs,
        d.filename ≠ "modules.html") ∧
      getFullUrl (buildDocuments readme P) P.eid = some "index.html") ∧
    (hasReadme readme = true →
      P.children.all (fun c => c.kindOf ReflectionKind.Module) = false →
      (buildDocuments readme P).docs.filter
          (fun d => d.model == P.eid) =
        [⟨P.eid, P.eid, "index.html", Template.index⟩,
         ⟨P.eid, P.eid, "modules.html", Template.reflection⟩] ∧
      getFullUrl (buildDocuments readme P) P.eid =
        some "modules.html") := by
  obtain ⟨nu, na, hu, ha, hd, hku, hkn⟩ :=
    buildOutputsList_shape P.eid P.eid [] P.children
      (rootState readme P)
  have hmodels : ∀ d ∈ ((outlineList ([] : List String)
      P.children).map
        (fun x => (⟨P.eid, x.1, x.2.1, Template.reflection⟩ :
          HtmlOutputDocument))), (d.model == P.eid) = false := by
    intro d hdm
    obtain ⟨x, hx, hxd⟩ := List.mem_map.mp hdm
    have hx1 : x.1 ∈ declIdsList P.children :=
      ((outlineList_spec [] P.children).1).subset
        (List.mem_map.mpr ⟨x, hx, rfl⟩)
    have : d.model = x.1 := by rw [← hxd]
    rw [this]
    exact beq_eq_false_iff_ne.mpr (fun he => hwf (he ▸ hx1))
  have hnil : List.filter (fun d => d.model == P.eid)
      ((outlineList ([] : List String) P.children).map
        (fun x => (⟨P.eid, x.1, x.2.1, Template.reflection⟩ :
          HtmlOutputDocument))) = [] := by
    rw [List.filter_eq_nil_iff]
    intro d hdm
    simp [hmodels d hdm]
  have hfilter : ∀ st1 : RouterState,
      (buildOutputsList P.eid P.eid [] P.children st1).docs.filter
        (fun d => d.model == P.eid) =
      st1.docs.filter (fun d => d.model == P.eid) := by
    intro st1
    obtain ⟨nu1, na1, hu1, ha1, hd1, _, _⟩ :=
      buildOutputsList_shape P.eid P.eid [] P.children st1
    rw [hd1, List.filter_append, hnil, List.append_nil]
  have hurl : ∀ st1 : RouterState,
      alookup P.eid
        (buildOutputsList P.eid P.eid [] P.children st1).urls =
      alookup P.eid st1.urls := by
    intro st1
    obtain ⟨nu1, na1, hu1, ha1, hd1, hku1, _⟩ :=
      buildOutputsList_shape P.eid P.eid [] P.children st1
    rw [hu1]
    exact alookup_append_of_keys nu1 st1.urls P.eid
      (fun p hp he => hwf (he ▸ hku1 p hp))
  refine ⟨?_, ?_, ?_⟩
  · intro hr
    have hroot : rootState readme P =
        ⟨[(P.eid, "index.html")], [],
          [⟨P.eid, P.eid, "index.html", Template.reflection⟩]⟩ := by
      simp [rootState, hr]
    rw [buildDocuments_eq_root]
    constructor
    · rw [hfilter, hroot]
      simp [List.filter]
    · rw [getFullUrl, hurl, hroot]
      simp [alookup]
  · intro hr hall
    have hroot : rootState readme P =
        ⟨[(P.eid, "index.html")], [],
          [⟨P.eid, P.eid, "index.html", Template.index⟩]⟩ := by
      simp [rootState, hr, hall]
    rw [buildDocuments_eq_root]
    refine ⟨?_, ?_, ?_⟩
    · rw [hfilter, hroot]
      simp [List.filter]
    · intro d hdm hfn
      rw [hd, hroot] at hdm
      rcases List.mem_append.mp hdm with h | h
      · simp only [List.mem_cons, List.not_mem_nil, or_false] at h
        subst h
        simp at hfn
      · obtain ⟨x, hx, hxd⟩ := List.mem_map.mp h
        have hslash := outline_filename_slash [] P.children x hx
        have hdf : d.filename = x.2.1 := by rw [← hxd]
        rw [hdf] at hfn
        rw [hfn] at hslash
        exact absurd hslash (by decide)
    · rw [getFullUrl, hurl, hroot]
      simp [alookup]
  · intro hr hall
    have hroot : rootState readme P =
        ⟨[(P.eid, "modules.html")], [],
          [⟨P.eid, P.eid, "index.html", Template.index⟩,
           ⟨P.eid, P.eid, "modules.html", Template.reflection⟩]⟩ := by
      simp [rootState, hr, hall]
    rw [buildDocuments_eq_root]
    constructor
    · rw [hfilter, hroot]
      simp [List.filter]
    · rw [getFullUrl, hurl, hroot]
      simp [alookup]

/-- C2 witness: a project with one class child and one module child
(mixed), readme present. -/
theorem C2_root_document_cases_witness :
    (buildDocuments "README.md"
        (ProjectReflection.mk 1
          [DeclarationReflection.mk 2 "Foo" ReflectionKind.Class [],
           DeclarationReflection.mk 3 "M" ReflectionKind.Module []])).docs.filter
        (fun d => d.model == 1) =
      [⟨1, 1, "index.html", Template.index⟩,
       ⟨1, 1, "modules.html", Template.reflection⟩] ∧
    getFullUrl (buildDocuments "README.md"
        (ProjectReflection.mk 1
          [DeclarationReflection.mk 2 "Foo" ReflectionKind.Class [],
           DeclarationReflection.mk 3 "M" ReflectionKind.Module []])) 1 =
      some "modules.html" :=
  (C2_root_document_cases "README.md"
    (ProjectReflection.mk 1
      [DeclarationReflection.mk 2 "Foo" ReflectionKind.Class [],
       DeclarationReflection.mk 3 "M" ReflectionKind.Module []])
    (by simp [declIds, declIdsList, DeclarationReflection.eid,
      DeclarationReflection.children])).2.2 (by decide) (by decide)

/-! ### The resolution-consistency invariant through the traversal -/

theorem hasOwn_docs_eq (st1 st2 : RouterState) (h : st1.docs = st2.docs)
    (e : Nat) : hasOwnDocument st1 e = hasOwnDocument st2 e := by
  rw [hasOwnDocument, hasOwnDocument, h]

theorem hasOwn_of_mem (st : RouterState) (d : HtmlOutputDocument)
    (hd : d ∈ st.docs) (e : Nat) (hm : d.model = e) :
    hasOwnDocument st e = true := by
  rw [hasOwnDocument]
  exact List.any_eq_true.mpr ⟨d, hd, beq_iff_eq.mpr hm⟩

theorem hasOwn_append_mono (st1 st2 : RouterState)
    (nd : List HtmlOutputDocument) (h : st1.docs = st2.docs ++ nd)
    (e : Nat) (he : hasOwnDocument st2 e = true) :
    hasOwnDocument st1 e = true := by
  rw [hasOwnDocument, h, List.any_append]
  rw [hasOwnDocument] at he
  rw [he, Bool.true_or]

theorem hasOwn_append_cases (st1 st2 : RouterState)
    (nd : List HtmlOutputDocument) (h : st1.docs = st2.docs ++ nd)
    (e : Nat) (he : hasOwnDocument st1 e = true) :
    hasOwnDocument st2 e = true ∨ ∃ d ∈ nd, d.model = e := by
  rw [hasOwnDocument, h, List.any_append, Bool.or_eq_true] at he
  rcases he with h1 | h2
  · left
    rw [hasOwnDocument]
    exact h1
  · right
    obtain ⟨d, hd, hb⟩ := List.any_eq_true.mp h2
    exact ⟨d, hd, beq_iff_eq.mp hb⟩

mutual
theorem applyAnchorUrl_good (cEid : Nat) (ancRel : List String)
    (r : DeclarationReflection) (st : RouterState)
    (hg : good st) (hnd : (declIds r).Nodup)
    (hfresh : ∀ e ∈ declIds r, keyFree e st)
    (hc : cEid ∉ declIds r) (cu : String)
    (hcu : alookup cEid st.urls = some cu)
    (hcd : hasOwnDocument st cEid = true) :
    good (applyAnchorUrl cEid ancRel r st) := by
  rw [applyAnchorUrl]
  have hmemr : r.eid ∈ declIds r := by
    rw [declIds]
    exact List.mem_cons_self _ _
  have hfr : keyFree r.eid st := hfresh r.eid hmemr
  have hne : r.eid ≠ cEid := fun h => hc (h ▸ hmemr)
  have hndc := (List.nodup_cons.mp (by rw [declIds] at hnd; exact hnd))
  refine applyAnchorUrlList_good cEid (r.getAlias :: ancRel) r.children
    _ ?_ ?_ ?_ ?_ cu ?_ ?_
  · constructor
    · intro e a hae
      by_cases he : r.eid = e
      · subst he
        rw [alookup, if_pos rfl] at hae
        have ha2 : a = getUrl r.getAlias ancRel := by
          exact (Option.some.injEq _ _).mp hae.symm
        refine ⟨cEid, cu, ?_, ?_, ?_⟩
        · exact hcd
        · rw [alookup_cons_ne _ _ _ _ hne]
          exact hcu
        · rw [alookup, if_pos rfl, hcu, ha2]
          rfl
      · rw [alookup_cons_ne _ _ _ _ he] at hae
        obtain ⟨c, cu2, hc1, hc2, hc3⟩ := hg.1 e a hae
        have hcne : r.eid ≠ c := fun h =>
          (hfr.1 (c, cu2) (alookup_mem c cu2 st.urls hc2)) h.symm
        refine ⟨c, cu2, ?_, ?_, ?_⟩
        · exact hc1
        · rw [alookup_cons_ne _ _ _ _ hcne]
          exact hc2
        · rw [alookup_cons_ne _ _ _ _ he]
          exact hc3
    · intro e hoe
      obtain ⟨d, hd1, hd2, hd3⟩ := hg.2 e hoe
      have hene : r.eid ≠ e := fun h =>
        (hfr.2.2 d hd1) (by rw [hd2, h])
      refine ⟨d, hd1, hd2, ?_⟩
      rw [alookup_cons_ne _ _ _ _ hene]
      exact hd3
  · exact hndc.2
  · intro e he
    have hene : e ≠ r.eid := fun h => hndc.1 (h ▸ he)
    have hkf := hfresh e (by rw [declIds]; exact List.mem_cons_of_mem _ he)
    refine ⟨?_, ?_, ?_⟩
    · intro p hp
      rcases List.mem_cons.mp hp with h | h
      · rw [h]
        exact fun hx => hene hx.symm
      · exact hkf.1 p h
    · intro p hp
      rcases List.mem_cons.mp hp with h | h
      · rw [h]
        exact fun hx => hene hx.symm
      · exact hkf.2.1 p h
    · exact hkf.2.2
  · exact fun hm => hc (by rw [declIds]; exact List.mem_cons_of_mem _ hm)
  · rw [alookup_cons_ne _ _ _ _ hne]
    exact hcu
  · exact hcd
termination_by sizeOf r
decreasing_by
  simp_wf
  exact sizeOf_children_lt r

theorem applyAnchorUrlList_good (cEid : Nat) (ancRel : List String)
    (cs : List DeclarationReflection) (st : RouterState)
    (hg : good st) (hnd : (declIdsList cs).Nodup)
    (hfresh : ∀ e ∈ declIdsList cs, keyFree e st)
    (hc : cEid ∉ declIdsList cs) (cu : String)
    (hcu : alookup cEid st.urls = some cu)
    (hcd : hasOwnDocument st cEid = true) :
    good (applyAnchorUrlList cEid ancRel cs st) := by
  match cs with
  | [] =>
    rw [applyAnchorUrlList]
    exact hg
  | c :: rest =>
    rw [applyAnchorUrlList]
    rw [declIdsList] at hnd hfresh hc
    have hdisj := List.disjoint_of_nodup_append hnd
    obtain ⟨nu, na, hu, ha, hd, hku, hkn⟩ :=
      applyAnchorUrl_shape cEid ancRel c st
    refine applyAnchorUrlList_good cEid ancRel rest _ ?_ ?_ ?_ ?_ cu ?_ ?_
    · exact applyAnchorUrl_good cEid ancRel c st hg hnd.of_append_left
        (fun e he => hfresh e (List.mem_append.mpr (Or.inl he)))
        (fun hm => hc (List.mem_append.mpr (Or.inl hm))) cu hcu hcd
    · exact hnd.of_append_right
    · intro e he
      have hnec : e ∉ declIds c := fun hec => hdisj hec he
      have hkf := hfresh e (List.mem_append.mpr (Or.inr he))
      refine ⟨?_, ?_, ?_⟩
      · intro p hp
        rw [hu] at hp
        rcases List.mem_append.mp hp with h | h
        · exact fun hx => hnec (hx ▸ hku p h)
        · exact hkf.1 p h
      · intro p hp
        rw [ha] at hp
        rcases List.mem_append.mp hp with h | h
        · exact fun hx => hnec (hx ▸ hkn p h)
        · exact hkf.2.1 p h
      · intro d hdm
        rw [hd] at hdm
        exact hkf.2.2 d hdm
    · exact fun hm => hc (List.mem_append.mpr (Or.inr hm))
    · rw [hu]
      rw [alookup_append_of_keys nu st.urls cEid
        (fun p hp hx => (fun hm => hc (List.mem_append.mpr (Or.inl hm)))
          (hx ▸ hku p hp))]
      exact hcu
    · exact hasOwn_append_mono _ st [] (by rw [hd, List.append_nil]) cEid
        hcd
termination_by sizeOf cs
decreasing_by
  all_goals simp_wf <;> omega
end

mutual
theorem buildOutputs_good (projEid parentEid : Nat) (anc : List String)
    (r : DeclarationReflection) (st : RouterState)
    (hg : good st) (hnd : (declIds r).Nodup)
    (hfresh : ∀ e ∈ declIds r, keyFree e st)
    (hp : parentEid ∉ declIds r) (pu : String)
    (hpu : alookup parentEid st.urls = some pu)
    (hpd : hasOwnDocument st parentEid = true) :
    good (buildOutputs projEid parentEid anc r st) := by
  rw [buildOutputs]
  have hmemr : r.eid ∈ declIds r := by
    rw [declIds]
    exact List.mem_cons_self _ _
  have hfr : keyFree r.eid st := hfresh r.eid hmemr
  have hne : r.eid ≠ parentEid := fun h => hp (h ▸ hmemr)
  have hndc := (List.nodup_cons.mp (by rw [declIds] at hnd; exact hnd))
  cases hmap : kindMappings r.kind with
  | none =>
    exact applyAnchorUrl_good parentEid [] r st hg hnd hfresh hp pu hpu
      hpd
  | some m =>
    refine buildOutputsList_good projEid r.eid (r.getAlias :: anc)
      r.children _ ?_ ?_ ?_ ?_
      (m ++ "/" ++ (getUrl r.getAlias anc ++ ".html")) ?_ ?_
    · constructor
      · intro e a hae
        obtain ⟨c, cu2, hc1, hc2, hc3⟩ := hg.1 e a hae
        have hcne : r.eid ≠ c := fun h =>
          (hfr.1 (c, cu2) (alookup_mem c cu2 st.urls hc2)) h.symm
        have hene : r.eid ≠ e := fun h =>
          (hfr.1 (e, cu2 ++ "#" ++ a)
            (alookup_mem _ _ st.urls hc3)) h.symm
        refine ⟨c, cu2, ?_, ?_, ?_⟩
        · exact hasOwn_append_mono _ st _ rfl c hc1
        · rw [alookup_cons_ne _ _ _ _ hcne]
          exact hc2
        · rw [alookup_cons_ne _ _ _ _ hene]
          exact hc3
      · intro e hoe
        rcases hasOwn_append_cases _ st _ rfl e hoe with h | h
        · obtain ⟨d, hd1, hd2, hd3⟩ := hg.2 e h
          have hene : r.eid ≠ e := fun hx =>
            (hfr.2.2 d hd1) (by rw [hd2, hx])
          refine ⟨d, List.mem_append.mpr (Or.inl hd1), hd2, ?_⟩
          rw [alookup_cons_ne _ _ _ _ hene]
          exact hd3
        · obtain ⟨d, hd1, hd2⟩ := h
          simp only [List.mem_cons, List.not_mem_nil, or_false] at hd1
          subst hd1
          refine ⟨_, List.mem_append.mpr (Or.inr
            (List.mem_cons_self _ _)), hd2, ?_⟩
          rw [← hd2]
          exact alookup_cons_self _ _ _
    · exact hndc.2
    · intro e he
      have hene : e ≠ r.eid := fun h => hndc.1 (h ▸ he)
      have hkf := hfresh e
        (by rw [declIds]; exact List.mem_cons_of_mem _ he)
      refine ⟨?_, ?_, ?_⟩
      · intro p hp2
        rcases List.mem_cons.mp hp2 with h | h
        · rw [h]
          exact fun hx => hene hx.symm
        · exact hkf.1 p h
      · exact hkf.2.1
      · intro d hdm
        rcases List.mem_append.mp hdm with h | h
        · exact hkf.2.2 d h
        · simp only [List.mem_cons, List.not_mem_nil, or_false] at h
          subst h
          exact fun hx => hene hx.symm
    · exact hndc.1
    · exact alookup_cons_self _ _ _
    · exact hasOwn_of_mem _
        ⟨projEid, r.eid, m ++ "/" ++ (getUrl r.getAlias anc ++ ".html"),
          Template.reflection⟩
        (List.mem_append.mpr (Or.inr (List.mem_cons_self _ _))) r.eid rfl
termination_by sizeOf r
decreasing_by
  simp_wf
  exact sizeOf_children_lt r

theorem buildOutputsList_good (projEid parentEid : Nat)
    (anc : List String) (cs : List DeclarationReflection)
    (st : RouterState)
    (hg : good st) (hnd : (declIdsList cs).Nodup)
    (hfresh : ∀ e ∈ declIdsList cs, keyFree e st)
    (hp : parentEid ∉ declIdsList cs) (pu : String)
    (hpu : alookup parentEid st.urls = some pu)
    (hpd : hasOwnDocument st parentEid = true) :
    good (buildOutputsList projEid parentEid anc cs st) := by
  match cs with
  | [] =>
    rw [buildOutputsList]
    exact hg
  | c :: rest =>
    rw [buildOutputsList]
    rw [declIdsList] at hnd hfresh hp
    have hdisj := List.disjoint_of_nodup_append hnd
    obtain ⟨nu, na, hu, ha, hd, hku, hkn⟩ :=
      buildOutputs_shape projEid parentEid anc c st
    have hmodsub : ∀ d ∈ (outline anc c).map
        (fun x => (⟨projEid, x.1, x.2.1, Template.reflection⟩ :
          HtmlOutputDocument)), d.model ∈ declIds c := by
      intro d hdm
      obtain ⟨x, hx, hxd⟩ := List.mem_map.mp hdm
      have : d.model = x.1 := by rw [← hxd]
      rw [this]
      exact ((outline_spec anc c).1).subset
        (List.mem_map.mpr ⟨x, hx, rfl⟩)
    refine buildOutputsList_good projEid parentEid anc rest _
      ?_ ?_ ?_ ?_ pu ?_ ?_
    · exact buildOutputs_good projEid parentEid anc c st hg
        hnd.of_append_left
        (fun e he => hfresh e (List.mem_append.mpr (Or.inl he)))
        (fun hm => hp (List.mem_append.mpr (Or.inl hm))) pu hpu hpd
    · exact hnd.of_append_right
    · intro e he
      have hnec : e ∉ declIds c := fun hec => hdisj hec he
      have hkf := hfresh e (List.mem_append.mpr (Or.inr he))
      refine ⟨?_, ?_, ?_⟩
      · intro p hp2
        rw [hu] at hp2
        rcases List.mem_append.mp hp2 with h | h
        · exact fun hx => hnec (hx ▸ hku p h)
        · exact hkf.1 p h
      · intro p hp2
        rw [ha] at hp2
        rcases List.mem_append.mp hp2 with h | h
        · exact fun hx => hnec (hx ▸ hkn p h)
        · exact hkf.2.1 p h
      · intro d hdm
        rw [hd] at hdm
        rcases List.mem_append.mp hdm with h | h
        · exact hkf.2.2 d h
        · exact fun hx => hnec (hx ▸ hmodsub d h)
    · exact fun hm => hp (List.mem_append.mpr (Or.inr hm))
    · rw [hu]
      rw [alookup_append_of_keys nu st.urls parentEid
        (fun p hp2 hx => (fun hm => hp (List.mem_append.mpr (Or.inl hm)))
          (hx ▸ hku p hp2))]
      exact hpu
    · exact hasOwn_append_mono _ st _ hd parentEid hpd
termination_by sizeOf cs
decreasing_by
  all_goals simp_wf <;> omega
end

theorem good_root (p : Nat) (v : String) (ds : List HtmlOutputDocument)
    (hmem : ∃ d, d ∈ ds ∧ d.model = p ∧ d.filename = v)
    (hall : ∀ d ∈ ds, d.model = p) :
    good ⟨[(p, v)], [], ds⟩ := by
  constructor
  · intro e a hae
    simp [alookup] at hae
  · intro e hoe
    rw [hasOwnDocument] at hoe
    obtain ⟨d0, hd0, hb⟩ := List.any_eq_true.mp hoe
    have he : e = p := by rw [← beq_iff_eq.mp hb, hall d0 hd0]
    obtain ⟨d, hd, hdm, hdf⟩ := hmem
    subst he
    refine ⟨d, hd, hdm, ?_⟩
    rw [hdf]
    exact alookup_cons_self _ _ _

theorem buildDocuments_good (readme : String) (P : ProjectReflection)
    (hwf : (P.eid :: declIdsList P.children).Nodup) :
    good (buildDocuments readme P) := by
  rw [buildDocuments_eq_root]
  have hnd := List.nodup_cons.mp hwf
  obtain ⟨v, hurls, hanch, hmodels, hgood, hown⟩ :
      ∃ v, (rootState readme P).urls = [(P.eid, v)] ∧
        (rootState readme P).anchors = [] ∧
        (∀ d ∈ (rootState readme P).docs, d.model = P.eid) ∧
        good (rootState readme P) ∧
        hasOwnDocument (rootState readme P) P.eid = true := by
    by_cases hr : hasReadme readme
    · by_cases hall : P.children.all
        (fun c => c.kindOf ReflectionKind.Module)
      · have hroot : rootState readme P =
            ⟨[(P.eid, "index.html")], [],
              [⟨P.eid, P.eid, "index.html", Template.index⟩]⟩ := by
          simp [rootState, hr, hall]
        rw [hroot]
        refine ⟨"index.html", rfl, rfl, ?_, ?_, ?_⟩
        · intro d hd
          simp only [List.mem_cons, List.not_mem_nil, or_false] at hd
          rw [hd]
        · exact good_root P.eid "index.html" _
            ⟨_, List.mem_cons_self _ _, rfl, rfl⟩
            (fun d hd => by
              simp only [List.mem_cons, List.not_mem_nil, or_false] at hd
              rw [hd])
        · exact hasOwn_of_mem _ _ (List.mem_cons_self _ _) P.eid rfl
      · have hroot : rootState readme P =
            ⟨[(P.eid, "modules.html")], [],
              [⟨P.eid, P.eid, "index.html", Template.index⟩,
               ⟨P.eid, P.eid, "modules.html", Template.reflection⟩]⟩ := by
          simp [rootState, hr, hall]
        rw [hroot]
        refine ⟨"modules.html", rfl, rfl, ?_, ?_, ?_⟩
        · intro d hd
          simp only [List.mem_cons, List.not_mem_nil, or_false] at hd
          rcases hd with h | h <;> rw [h]
        · exact good_root P.eid "modules.html" _
            ⟨⟨P.eid, P.eid, "modules.html", Template.reflection⟩,
              List.mem_cons_of_mem _ (List.mem_cons_self _ _), rfl, rfl⟩
            (fun d hd => by
              simp only [List.mem_cons, List.not_mem_nil, or_false] at hd
              rcases hd with h | h <;> rw [h])
        · exact hasOwn_of_mem _ _ (List.mem_cons_self _ _) P.eid rfl
    · have hroot : rootState readme P =
          ⟨[(P.eid, "index.html")], [],
            [⟨P.eid, P.eid, "index.html", Template.reflection⟩]⟩ := by
        simp only [Bool.not_eq_true] at hr
        simp [rootState, hr]
      rw [hroot]
      refine ⟨"index.html", rfl, rfl, ?_, ?_, ?_⟩
      · intro d hd
        simp only [List.mem_cons, List.not_mem_nil, or_false] at hd
        rw [hd]
      · exact good_root P.eid "index.html" _
          ⟨_, List.mem_cons_self _ _, rfl, rfl⟩
          (fun d hd => by
            simp only [List.mem_cons, List.not_mem_nil, or_false] at hd
            rw [hd])
      · exact hasOwn_of_mem _ _ (List.mem_cons_self _ _) P.eid rfl
  refine buildOutputsList_good P.eid P.eid [] P.children _ hgood hnd.2
    ?_ hnd.1 v ?_ hown
  · intro e he
    have hene : e ≠ P.eid := fun h => hnd.1 (h ▸ he)
    refine ⟨?_, ?_, ?_⟩
    · intro p hp
      rw [hurls] at hp
      simp only [List.mem_cons, List.not_mem_nil, or_false] at hp
      rw [hp]
      exact fun hx => hene hx.symm
    · intro p hp
      rw [hanch] at hp
      exact absurd hp (List.not_mem_nil p)
    · intro d hd
      rw [hmodels d hd]
      exact fun hx => hene hx.symm
  · rw [hurls]
    exact alookup_cons_self _ _ _

/-- C5: after routing, link resolution is consistent with the address
table: every document-owning entity resolves to the path of one of its
documents, and every anchored entity resolves to the url of a
document-owning container followed by the hash sign and its anchor. -/
theorem C5_resolution_consistency (readme : String)
    (P : ProjectReflection)
    (hwf : (P.eid :: declIdsList P.children).Nodup) :
    (∀ e, hasOwnDocument (buildDocuments readme P) e = true →
      ∃ d, d ∈ (buildDocuments readme P).docs ∧ d.model = e ∧
        getFullUrl (buildDocuments readme P) e = some d.filename) ∧
    (∀ e a, getAnchor (buildDocuments readme P) e = some a →
      ∃ c cu, hasOwnDocument (buildDocuments readme P) c = true ∧
        getFullUrl (buildDocuments readme P) c = some cu ∧
        getFullUrl (buildDocuments readme P) e =
          some (cu ++ "#" ++ a)) := by
  have hg := buildDocuments_good readme P hwf
  exact ⟨fun e he => hg.2 e he, fun e a ha => hg.1 e a ha⟩

/-- C5 witness: in the fixture graph the method (identity 3) is
anchored, and its resolved url is its container's url plus hash plus
anchor. -/
theorem C5_resolution_consistency_witness :
    ∃ c cu,
      hasOwnDocument (buildDocuments "present" fixtureProject) c = true ∧
      getFullUrl (buildDocuments "present" fixtureProject) c = some cu ∧
      getFullUrl (buildDocuments "present" fixtureProject) 3 =
        some (cu ++ "#" ++ "m") :=
  (C5_resolution_consistency "present" fixtureProject
    (by simp [declIds, declIdsList, fixtureProject,
      DeclarationReflection.eid, DeclarationReflection.children])).2 3 "m"
    (by simp [buildDocuments, buildOutputsList, buildOutputs,
      applyAnchorUrl, applyAnchorUrlList, getAnchor, alookup, hasReadme,
      strEndsWith, kindMappings, getUrl, jsStr, fixtureProject,
      DeclarationReflection.eid, DeclarationReflection.getAlias,
      DeclarationReflection.kind, DeclarationReflection.children,
      DeclarationReflection.kindOf])

/-! ### String decomposition lemmas for url uniqueness -/

theorem sep_append_inj (sep : Char) :
    ∀ (l1 l2 r1 r2 : List Char), sep ∉ l1 → sep ∉ l2 →
      l1 ++ sep :: r1 = l2 ++ sep :: r2 → l1 = l2 ∧ r1 = r2 := by
  intro l1
  induction l1 with
  | nil =>
    intro l2 r1 r2 h1 h2 heq
    cases l2 with
    | nil => simpa using heq
    | cons c cs =>
      simp only [List.nil_append, List.cons_append, List.cons.injEq]
        at heq
      exact absurd (heq.1 ▸ List.mem_cons_self c cs) h2
  | cons a l1 ih =>
    intro l2 r1 r2 h1 h2 heq
    cases l2 with
    | nil =>
      simp only [List.nil_append, List.cons_append, List.cons.injEq]
        at heq
      exact absurd (heq.1.symm ▸ List.mem_cons_self a l1) h1
    | cons b l2 =>
      simp only [List.cons_append, List.cons.injEq] at heq
      obtain ⟨hab, htail⟩ := heq
      obtain ⟨hl, hr⟩ := ih l2 r1 r2
        (fun hm => h1 (List.mem_cons_of_mem _ hm))
        (fun hm => h2 (List.mem_cons_of_mem _ hm)) htail
      exact ⟨by rw [hab, hl], hr⟩

theorem getUrl_data (al : String) (anc : List String) :
    ∃ pre : List Char, (getUrl al anc).data = pre ++ al.data ∧
      (pre = [] ∨ ∃ q, pre = q ++ [('.' : Char)]) := by
  induction anc generalizing al with
  | nil => exact ⟨[], rfl, Or.inl rfl⟩
  | cons p rest ih =>
    refine ⟨(getUrl p rest).data ++ [('.' : Char)], ?_,
      Or.inr ⟨_, rfl⟩⟩
    rw [getUrl, String.data_append, String.data_append,
      List.append_assoc]

theorem getUrl_own_inj (a1 a2 : String) (anc1 anc2 : List String)
    (h1 : ('.' : Char) ∉ a1.data) (h2 : ('.' : Char) ∉ a2.data)
    (heq : getUrl a1 anc1 = getUrl a2 anc2) : a1 = a2 := by
  obtain ⟨p1, hd1, hc1⟩ := getUrl_data a1 anc1
  obtain ⟨p2, hd2, hc2⟩ := getUrl_data a2 anc2
  have hdata : p1 ++ a1.data = p2 ++ a2.data := by
    rw [← hd1, ← hd2, heq]
  rcases hc1 with hp1 | ⟨q1, hp1⟩ <;> rcases hc2 with hp2 | ⟨q2, hp2⟩
  · subst hp1
    subst hp2
    exact String.ext (by simpa using hdata)
  · subst hp1
    subst hp2
    rw [List.nil_append, List.append_assoc] at hdata
    exact absurd (hdata ▸ List.mem_append.mpr (Or.inr
      (List.mem_cons_self _ _)) :
        ('.' : Char) ∈ a1.data) h1
  · subst hp1
    subst hp2
    rw [List.nil_append, List.append_assoc] at hdata
    exact absurd (hdata.symm ▸ List.mem_append.mpr (Or.inr
      (List.mem_cons_self _ _)) :
        ('.' : Char) ∈ a2.data) h2
  · subst hp1
    subst hp2
    have hrev := congrArg List.reverse hdata
    simp only [List.reverse_append, List.reverse_cons,
      List.reverse_singleton] at hrev
    have hsep := sep_append_inj ('.' : Char) a1.data.reverse
      a2.data.reverse q1.reverse q2.reverse
      (fun hm => h1 (List.mem_reverse.mp hm))
      (fun hm => h2 (List.mem_reverse.mp hm))
      (by simpa [List.append_assoc] using hrev)
    exact String.ext (by
      have := congrArg List.reverse hsep.1
      simpa using this)

theorem slash_split_inj (m1 m2 t1 t2 : String)
    (h1 : ('/' : Char) ∉ m1.data) (h2 : ('/' : Char) ∉ m2.data)
    (heq : m1 ++ "/" ++ t1 = m2 ++ "/" ++ t2) : m1 = m2 ∧ t1 = t2 := by
  have hdata := congrArg String.data heq
  simp only [String.data_append] at hdata
  have : m1.data ++ ('/' : Char) :: t1.data =
      m2.data ++ ('/' : Char) :: t2.data := by
    simpa [List.append_assoc] using hdata
  obtain ⟨ha, hb⟩ := sep_append_inj ('/' : Char) _ _ _ _ h1 h2 this
  exact ⟨String.ext ha, String.ext hb⟩

theorem html_suffix_cancel (c1 c2 : String)
    (h : c1 ++ ".html" = c2 ++ ".html") : c1 = c2 := by
  have hdata := congrArg String.data h
  simp only [String.data_append] at hdata
  exact String.ext (List.append_cancel_right hdata)

theorem rootState_docs_facts (readme : String) (P : ProjectReflection) :
    ∀ d ∈ (rootState readme P).docs,
      d.model = P.eid ∧ ('/' : Char) ∉ d.filename.data := by
  intro d hd
  by_cases hr : hasReadme readme
  · by_cases hall : P.children.all
      (fun c => c.kindOf ReflectionKind.Module)
    · simp only [rootState, hr, hall, Bool.not_true, Bool.false_eq_true,
        if_false, if_true] at hd
      simp only [List.mem_cons, List.not_mem_nil, or_false] at hd
      subst hd
      refine ⟨rfl, ?_⟩
      show ('/' : Char) ∉ ("index.html" : String).data
      decide
    · simp only [rootState, hr, hall, Bool.not_true, Bool.false_eq_true,
        if_false, if_true] at hd
      simp only [List.mem_cons, List.not_mem_nil, or_false] at hd
      rcases hd with h | h
      · subst h
        refine ⟨rfl, ?_⟩
        show ('/' : Char) ∉ ("index.html" : String).data
        decide
      · subst h
        refine ⟨rfl, ?_⟩
        show ('/' : Char) ∉ ("modules.html" : String).data
        decide
  · simp only [Bool.not_eq_true] at hr
    simp only [rootState, hr, Bool.not_false, if_true] at hd
    simp only [List.mem_cons, List.not_mem_nil, or_false] at hd
    subst hd
    refine ⟨rfl, ?_⟩
    show ('/' : Char) ∉ ("index.html" : String).data
    decide

theorem mappingDirs_no_slash :
    ∀ m ∈ mappingDirs, ('/' : Char) ∉ m.data := by decide

/-- C1 counterexample: with two sibling classes both aliased `Foo`,
both are classified document-worthy, yet the address table assigns them
the same url `classes/Foo.html`. -/
theorem C1_alias_collision_same_url :
    hasOwnDocument (buildDocuments "none" collisionProject) 2 = true ∧
    hasOwnDocument (buildDocuments "none" collisionProject) 3 = true ∧
    getFullUrl (buildDocuments "none" collisionProject) 2 =
      some "classes/Foo.html" ∧
    getFullUrl (buildDocuments "none" collisionProject) 3 =
      some "classes/Foo.html" := by
  refine ⟨?_, ?_, ?_, ?_⟩ <;>
    simp [buildDocuments, buildOutputsList, buildOutputs, applyAnchorUrl,
      applyAnchorUrlList, getFullUrl, hasOwnDocument, alookup, hasReadme,
      strEndsWith, kindMappings, getUrl, jsStr, collisionProject,
      DeclarationReflection.eid, DeclarationReflection.getAlias,
      DeclarationReflection.kind, DeclarationReflection.children,
      DeclarationReflection.kindOf]

/-- C1 as amended: distinct document-owning entities receive distinct
urls provided the aliases across the graph are pairwise distinct and
each alias is free of the dot and slash separators (the alias-collision
case is excluded, as §4.1.6 of the spec documents). -/
theorem C1_urls_distinct_amended (readme : String)
    (P : ProjectReflection)
    (hids : (P.eid :: declIdsList P.children).Nodup)
    (hal : (declAliasesList P.children).Nodup)
    (hdot : ∀ a ∈ declAliasesList P.children, ('.' : Char) ∉ a.data)
    (e1 e2 : Nat) (hne : e1 ≠ e2)
    (h1 : hasOwnDocument (buildDocuments readme P) e1 = true)
    (h2 : hasOwnDocument (buildDocuments readme P) e2 = true) :
    getFullUrl (buildDocuments readme P) e1 ≠
      getFullUrl (buildDocuments readme P) e2 := by
  have hg := buildDocuments_good readme P hids
  obtain ⟨d1, hd1m, hd1mod, hd1url⟩ := hg.2 e1 h1
  obtain ⟨d2, hd2m, hd2mod, hd2url⟩ := hg.2 e2 h2
  intro hequ
  have hfn : d1.filename = d2.filename := by
    simp only [getFullUrl] at hequ
    rw [hd1url, hd2url] at hequ
    exact Option.some.inj hequ
  obtain ⟨nu, na, hu, ha, hd, hku, hkn⟩ :=
    buildOutputsList_shape P.eid P.eid [] P.children
      (rootState readme P)
  rw [buildDocuments_eq_root] at hd1m hd2m
  rw [hd] at hd1m hd2m
  have houtslash := outline_filename_slash [] P.children
  have hcase : ∀ (d : HtmlOutputDocument) (e : Nat), d.model = e →
      d ∈ (rootState readme P).docs ++
        (outlineList [] P.children).map
          (fun x => (⟨P.eid, x.1, x.2.1, Template.reflection⟩ :
            HtmlOutputDocument)) →
      (e = P.eid ∧ ('/' : Char) ∉ d.filename.data) ∨
      (∃ x, x ∈ outlineList [] P.children ∧ x.1 = e ∧
        d.filename = x.2.1) := by
    intro d e hmod hdm
    rcases List.mem_append.mp hdm with h | h
    · obtain ⟨hm, hs⟩ := rootState_docs_facts readme P d h
      exact Or.inl ⟨by rw [← hmod, hm], hs⟩
    · obtain ⟨x, hx, hxd⟩ := List.mem_map.mp h
      refine Or.inr ⟨x, hx, ?_, ?_⟩
      · rw [← hmod, ← hxd]
      · rw [← hxd]
  rcases hcase d1 e1 hd1mod hd1m with ⟨he1, hs1⟩ | ⟨x1, hx1, hxm1, hxf1⟩
    <;> rcases hcase d2 e2 hd2mod hd2m with ⟨he2, hs2⟩ | ⟨x2, hx2, hxm2, hxf2⟩
  · exact hne (he1.trans he2.symm)
  · have := houtslash x2 hx2
    rw [← hxf2, ← hfn] at this
    exact hs1 this
  · have := houtslash x1 hx1
    rw [← hxf1, hfn] at this
    exact hs2 this
  · obtain ⟨m1, anc1, hsh1, hm1⟩ :=
      (outlineList_spec [] P.children).2.2 x1 hx1
    obtain ⟨m2, anc2, hsh2, hm2⟩ :=
      (outlineList_spec [] P.children).2.2 x2 hx2
    have hfneq : m1 ++ "/" ++ (getUrl x1.2.2 anc1 ++ ".html") =
        m2 ++ "/" ++ (getUrl x2.2.2 anc2 ++ ".html") := by
      rw [← hsh1, ← hsh2, ← hxf1, ← hxf2, hfn]
    obtain ⟨_, hchain⟩ := slash_split_inj m1 m2 _ _
      (mappingDirs_no_slash m1 hm1) (mappingDirs_no_slash m2 hm2) hfneq
    have hgu := html_suffix_cancel _ _ hchain
    have halsub := (outlineList_spec [] P.children).2.1
    have hamem1 : x1.2.2 ∈ declAliasesList P.children :=
      halsub.subset (List.mem_map.mpr ⟨x1, hx1, rfl⟩)
    have hamem2 : x2.2.2 ∈ declAliasesList P.children :=
      halsub.subset (List.mem_map.mpr ⟨x2, hx2, rfl⟩)
    have hown : x1.2.2 = x2.2.2 :=
      getUrl_own_inj _ _ anc1 anc2 (hdot _ hamem1) (hdot _ hamem2) hgu
    have hmapnodup : ((outlineList ([] : List String)
        P.children).map (fun x => x.2.2)).Nodup :=
      halsub.nodup hal
    have hx12 : x1 = x2 :=
      List.inj_on_of_nodup_map hmapnodup hx1 hx2 hown
    exact hne (by rw [← hxm1, ← hxm2, hx12])

/-- C1 witness for the amended theorem: in the fixture graph (distinct
aliases) the class and the module get distinct urls. -/
theorem C1_urls_distinct_amended_witness :
    getFullUrl (buildDocuments "present" fixtureProject) 2 ≠
      getFullUrl (buildDocuments "present" fixtureProject) 4 :=
  C1_urls_distinct_amended "present" fixtureProject
    (by simp [declIds, declIdsList, fixtureProject,
      DeclarationReflection.eid, DeclarationReflection.children])
    (by simp [declAliases, declAliasesList, fixtureProject,
      DeclarationReflection.getAlias, DeclarationReflection.children])
    (by
      intro a hamem
      simp [declAliases, declAliasesList, fixtureProject,
        DeclarationReflection.getAlias,
        DeclarationReflection.children] at hamem
      rcases hamem with h | h | h <;> subst h <;> decide)
    2 4 (by decide)
    (by simp [buildDocuments, buildOutputsList, buildOutputs,
      applyAnchorUrl, applyAnchorUrlList, hasOwnDocument, alookup,
      hasReadme, strEndsWith, kindMappings, getUrl, jsStr,
      fixtureProject, DeclarationReflection.eid,
      DeclarationReflection.getAlias, DeclarationReflection.kind,
      DeclarationReflection.children, DeclarationReflection.kindOf])
    (by simp [buildDocuments, buildOutputsList, buildOutputs,
      applyAnchorUrl, applyAnchorUrlList, hasOwnDocument, alookup,
      hasReadme, strEndsWith, kindMappings, getUrl, jsStr,
      fixtureProject, DeclarationReflection.eid,
      DeclarationReflection.getAlias, DeclarationReflection.kind,
      DeclarationReflection.children, DeclarationReflection.kindOf])

end Typedoc
